import Mathlib

/-!
# habit-tracker-cli: the weekly grid, its cursor and its week files

A shallow embedding of `pkg/tracker/tracker.go`.  Methods of `*HabitTracker`
become functions from a tracker state to the next tracker state.

Conventions of the embedding

* A Go `map[string]bool` is an `Option` of an association list: `none` is the
  nil map (reads give the zero value, an assignment panics), `some es` is an
  allocated map whose value at a key is the first pair of `es` with that key.
* A run-time panic is the `none` result of an operation returning `Option`.
* `time.Now().ISOWeek()` is the `now` argument of `SaveData` and `LoadData`.
* The data directory is the field `Files`, a map from path to the JSON
  document stored there.  Writes succeed and the text of a file is identified
  with the document it denotes, so only documents that parse are represented.
* Strings are sequences of Unicode scalar values (valid UTF-8).
* `tracker.go` never calls `Table.Select` outside the key handler: where the
  cursor starts is decided by `tview.Table.Draw`, which moves the selection
  off a cell that is not selectable.  That part of `Draw` is embedded
  (`scanSelectable`, `Table.Draw`) and runs before the first key press and
  after every key press.
-/

namespace Tracker

/-! ## Go maps from day name to completion -/

/-- Entries of an allocated `map[string]bool`. -/
abbrev Entries := List (String × Bool)

/-- Go `map[string]bool`; `none` is the nil map. -/
abbrev DayMap := Option Entries

/-- Value stored under `key` in the entries, if any. -/
def entriesLookup : Entries → String → Option Bool
  | [], _ => none
  | (k, v) :: rest, key => if k = key then some v else entriesLookup rest key

/-- Entries after storing `v` under `key`: the existing pair is overwritten, a
new key is added. -/
def entriesSet : Entries → String → Bool → Entries
  | [], key, v => [(key, v)]
  | (k, w) :: rest, key, v =>
    if k = key then (k, v) :: rest else (k, w) :: entriesSet rest key v

/-- The two-result read `v, ok := m[key]`. -/
def mapLookup (m : DayMap) (key : String) : Bool × Bool :=
  match m with
  | none => (false, false)
  | some es =>
    match entriesLookup es key with
    | some v => (v, true)
    | none => (false, false)

/-- The one-result read `m[key]`: the zero value `false` when absent. -/
def mapGet (m : DayMap) (key : String) : Bool :=
  (mapLookup m key).1

/-- The assignment `m[key] = v`; `none` is the panic
"assignment to entry in nil map". -/
def mapAssign (m : DayMap) (key : String) (v : Bool) : Option DayMap :=
  match m with
  | none => none
  | some es => some (some (entriesSet es key v))

/-- The result of `make(map[string]bool)`. -/
def makeMap : DayMap := some []

/-! ## Data model -/

/-- Go struct `Habit`. -/
structure Habit where
  Name : String
  Color : String
  DayResults : DayMap
deriving DecidableEq

/-- Result of `time.Now().ISOWeek()`. -/
structure WeekKey where
  year : Int
  week : Int
deriving DecidableEq

/-- JSON documents. -/
inductive Json where
  | null : Json
  | bool : Bool → Json
  | num : Int → Json
  | str : String → Json
  | arr : List Json → Json
  | obj : List (String × Json) → Json

/-- Subset of `tcell.Color` used by the tracker; `primaryText` is the colour a
fresh `tview.NewTableCell` carries. -/
inductive Color where
  | primaryText | blue | red | yellow | white | orange | purple | green
  | lightBlue | lightGreen | gray
deriving DecidableEq

/-- Fields of a `tview.TableCell` that `BuildUI` and `UpdateUI` set, apart from
alignment, expansion and background, which are the same for every cell kind. -/
structure Cell where
  Text : String
  TextColor : Color
  Selectable : Bool
deriving DecidableEq

/-- Content and selection of a `tview.Table`: the cells set, the row count and
column count the table has grown to, and the selected row and column. -/
structure Table where
  cells : Nat → Nat → Option Cell
  rowCount : Nat
  colCount : Nat
  selRow : Int
  selCol : Int

/-- Go struct `HabitTracker`, together with the contents of the data
directory. -/
structure HabitTracker where
  Habits : List Habit
  Days : List String
  DataDir : String
  Table : Table
  Files : String → Option Json

/-! ## encoding/json for the type `[]Habit` -/

/-- Each key of an allocated map once, with the value the map holds for it. -/
def mapEntries : Entries → Entries
  | [] => []
  | (k, v) :: rest => (k, v) :: (mapEntries rest).filter (fun e => e.1 ≠ k)

/-- Order in which `json.Marshal` emits map keys: ascending. -/
def keyLE (a b : String × Bool) : Prop := a.1 ≤ b.1

instance : DecidableRel keyLE := fun a b => inferInstanceAs (Decidable (a.1 ≤ b.1))

/-- Document of a `map[string]bool`: `null` for the nil map, otherwise an
object with one member per key, keys ascending. -/
def marshalDays : DayMap → Json
  | none => Json.null
  | some es =>
    Json.obj (((mapEntries es).insertionSort keyLE).map (fun e => (e.1, Json.bool e.2)))

/-- Document of a `Habit`, members in field order under the struct tags. -/
def marshalHabit (h : Habit) : Json :=
  Json.obj [("name", Json.str h.Name), ("color", Json.str h.Color),
    ("days", marshalDays h.DayResults)]

/-- Document `json.MarshalIndent(ht.Habits, "", "  ")` denotes. -/
def marshalHabits (hs : List Habit) : Json :=
  Json.arr (hs.map marshalHabit)

/-- Decoding into a `string` that currently holds `cur`. -/
def decodeString : Json → String → Except String String
  | Json.null, cur => Except.ok cur
  | Json.str s, _ => Except.ok s
  | _, _ => Except.error "json: cannot unmarshal into Go value of type string"

/-- Decoding into a fresh `bool` map element. -/
def decodeBool : Json → Except String Bool
  | Json.null => Except.ok false
  | Json.bool b => Except.ok b
  | _ => Except.error "json: cannot unmarshal into Go value of type bool"

/-- Members of a `days` object assigned, in document order, into the entries
`m`. -/
def decodeDayMembers : List (String × Json) → Entries → Except String Entries
  | [], m => Except.ok m
  | (k, v) :: rest, m =>
    match decodeBool v with
    | Except.ok b => decodeDayMembers rest (entriesSet m k b)
    | Except.error e => Except.error e

/-- Decoding into a `map[string]bool` that currently holds `cur`: `null`
leaves it as it is, an object allocates it when nil and assigns each member. -/
def decodeDays : Json → DayMap → Except String DayMap
  | Json.null, cur => Except.ok cur
  | Json.obj kvs, cur =>
    match decodeDayMembers kvs (cur.getD []) with
    | Except.ok m => Except.ok (some m)
    | Except.error e => Except.error e
  | _, _ => Except.error "json: cannot unmarshal into Go value of type map[string]bool"

/-- Members of a habit object assigned, in document order, into `cur`; keys
other than the three struct tags are skipped.  (Keys are matched exactly.) -/
def decodeHabitMembers : List (String × Json) → Habit → Except String Habit
  | [], cur => Except.ok cur
  | (k, v) :: rest, cur =>
    if k = "name" then
      match decodeString v cur.Name with
      | Except.ok s => decodeHabitMembers rest { cur with Name := s }
      | Except.error e => Except.error e
    else if k = "color" then
      match decodeString v cur.Color with
      | Except.ok s => decodeHabitMembers rest { cur with Color := s }
      | Except.error e => Except.error e
    else if k = "days" then
      match decodeDays v cur.DayResults with
      | Except.ok m => decodeHabitMembers rest { cur with DayResults := m }
      | Except.error e => Except.error e
    else decodeHabitMembers rest cur

/-- The zero value of `Habit`. -/
def zeroHabit : Habit := { Name := "", Color := "", DayResults := none }

/-- Decoding one array element into a fresh `Habit`. -/
def decodeHabit : Json → Except String Habit
  | Json.null => Except.ok zeroHabit
  | Json.obj kvs => decodeHabitMembers kvs zeroHabit
  | _ => Except.error "json: cannot unmarshal into Go value of type tracker.Habit"

/-- Decoding the elements of an array, in order. -/
def decodeHabitList : List Json → Except String (List Habit)
  | [] => Except.ok []
  | x :: rest =>
    match decodeHabit x with
    | Except.ok h =>
      match decodeHabitList rest with
      | Except.ok hs => Except.ok (h :: hs)
      | Except.error e => Except.error e
    | Except.error e => Except.error e

/-- The call `json.Unmarshal(data, &loadedHabits)` with `loadedHabits` nil:
the decoded slice, or the error returned. -/
def unmarshalHabits : Json → Except String (List Habit)
  | Json.null => Except.ok []
  | Json.arr xs => decodeHabitList xs
  | _ => Except.error "json: cannot unmarshal into Go value of type []tracker.Habit"

/-! ## Week files -/

/-- The verb `%d` of `fmt.Sprintf` on an `int`: decimal digits, with a leading
minus sign for a negative number. -/
def fmtInt : Int → String
  | Int.ofNat m => Nat.repr m
  | Int.negSucc m => "-" ++ Nat.repr (m + 1)

/-- The call `fmt.Sprintf("habits_%d_%d.json", year, week)`. -/
def weekFileName (k : WeekKey) : String :=
  "habits_" ++ fmtInt k.year ++ "_" ++ fmtInt k.week ++ ".json"

/-- The call `filepath.Join(dir, name)` for a `name` without separators and a
`dir` that is empty or a clean path other than the root. -/
def joinPath (dir name : String) : String :=
  if dir = "" then name else dir ++ "/" ++ name

/-- Path of the week file, as computed at the top of `SaveData` and
`LoadData`. -/
def weekFilePath (ht : HabitTracker) (now : WeekKey) : String :=
  joinPath ht.DataDir (weekFileName now)

/-- The call `os.WriteFile(path, data, 0644)`. -/
def writeFile (files : String → Option Json) (path : String) (data : Json) :
    String → Option Json :=
  fun p => if p = path then some data else files p

/-- Method `SaveData`: the week file of `now` is overwritten with the habit
list. -/
def SaveData (now : WeekKey) (ht : HabitTracker) : HabitTracker :=
  { ht with Files := writeFile ht.Files (weekFilePath ht now) (marshalHabits ht.Habits) }

/-- Keys of `colorMap`. -/
def colorMapKeys : List String :=
  ["water", "exercise", "certification", "breath", "newsboat", "recap", "personal", "read"]

/-- The `switch colorName` of `LoadData`, applied to the habit it updates. -/
def switchColor (colorName : String) (h : Habit) : Habit :=
  if colorName = "water" then { h with Color := "blue" }
  else if colorName = "exercise" then { h with Color := "red" }
  else if colorName = "certification" then { h with Color := "yellow" }
  else if colorName = "breath" then { h with Color := "white" }
  else if colorName = "newsboat" then { h with Color := "orange" }
  else if colorName = "recap" then { h with Color := "lightblue" }
  else if colorName = "personal" then { h with Color := "green" }
  else if colorName = "read" then { h with Color := "purple" }
  else h

/-- The inner loop `for colorName := range colorMap` of `LoadData`, visiting
the keys in the order `keys`, for the habit named `name`.  Go leaves the order
open; the result is the same for every order (`updateColor_order`). -/
def updateColor (keys : List String) (name : String) (h : Habit) : Habit :=
  keys.foldl (fun acc colorName => if name = colorName then switchColor colorName acc else acc) h

/-- The loop "Ensure colors are up to date" of `LoadData`. -/
def updateColors (hs : List Habit) : List Habit :=
  hs.map (fun h => updateColor colorMapKeys h.Name h)

/-- Method `LoadData`: the tracker after the call, or the error returned.
When the week file of `now` is absent every habit gets a fresh map and the
tracker is saved; otherwise the habits are replaced by the decoded file with
the colours of the built-in names reset. -/
def LoadData (now : WeekKey) (ht : HabitTracker) : Except String HabitTracker :=
  match ht.Files (weekFilePath ht now) with
  | none =>
    Except.ok (SaveData now
      { ht with Habits := ht.Habits.map (fun h => { h with DayResults := makeMap }) })
  | some data =>
    match unmarshalHabits data with
    | Except.error e => Except.error e
    | Except.ok loadedHabits => Except.ok { ht with Habits := updateColors loadedHabits }

/-! ## Habit list operations -/

/-- The call `tview.NewTable()`: no cells, selection at row 0, column 0. -/
def NewTable : Table :=
  { cells := fun _ _ => none, rowCount := 0, colCount := 0, selRow := 0, selCol := 0 }

/-- Function `NewHabitTracker` where `os.UserHomeDir` returns the clean
absolute path `homeDir` and the data directory holds `files`; the table, nil
in Go until `BuildUI` runs, is the empty table. -/
def NewHabitTracker (homeDir : String) (files : String → Option Json) : HabitTracker :=
  { Habits :=
      [ { Name := "water", Color := "blue", DayResults := makeMap },
        { Name := "exercise", Color := "red", DayResults := makeMap },
        { Name := "certification", Color := "yellow", DayResults := makeMap },
        { Name := "breath", Color := "white", DayResults := makeMap },
        { Name := "newsboat", Color := "orange", DayResults := makeMap },
        { Name := "recap", Color := "lightblue", DayResults := makeMap },
        { Name := "personal", Color := "green", DayResults := makeMap },
        { Name := "read", Color := "purple", DayResults := makeMap } ],
    Days := ["Monday", "Tuesday", "Wednesday", "Thursday", "Friday", "Saturday", "Sunday"],
    DataDir := joinPath homeDir ".habit-tracker",
    Table := NewTable,
    Files := files }

/-- Function `getColorByName`. -/
def getColorByName (colorName : String) : Color :=
  if colorName = "blue" then Color.blue
  else if colorName = "red" then Color.red
  else if colorName = "yellow" then Color.yellow
  else if colorName = "white" then Color.white
  else if colorName = "orange" then Color.orange
  else if colorName = "purple" then Color.purple
  else if colorName = "green" then Color.green
  else if colorName = "lightblue" then Color.lightBlue
  else if colorName = "lightgreen" then Color.lightGreen
  else Color.white

/-- Method `Table.SetCell`: the cell is stored and the table grows to hold its
row and column. -/
def Table.SetCell (t : Table) (row col : Nat) (c : Cell) : Table :=
  { t with
    cells := fun r k => if r = row ∧ k = col then some c else t.cells r k,
    rowCount := max t.rowCount (row + 1),
    colCount := max t.colCount (col + 1) }

/-- Method `Table.Select`. -/
def Table.Select (t : Table) (row col : Int) : Table :=
  { t with selRow := row, selCol := col }

/-- Top-left header cell of `BuildUI`. -/
def headerCell : Cell := { Text := "Habit", TextColor := Color.white, Selectable := false }

/-- Day header cell of `BuildUI`. -/
def dayCell (day : String) : Cell :=
  { Text := day, TextColor := Color.white, Selectable := false }

/-- Habit name cell of `BuildUI`. -/
def habitCell (h : Habit) : Cell :=
  { Text := "  " ++ h.Name ++ "  ", TextColor := getColorByName h.Color, Selectable := true }

/-- The test `completed, exists := habit.DayResults[day]; exists && completed`
of `BuildUI` and `UpdateUI`. -/
def isComplete (h : Habit) (day : String) : Bool :=
  (mapLookup h.DayResults day).2 && (mapLookup h.DayResults day).1

/-- Status cell of `BuildUI` for one habit and day. -/
def statusCell (h : Habit) (day : String) : Cell :=
  if isComplete h day then
    { Text := "✓", TextColor := getColorByName h.Color, Selectable := true }
  else
    { Text := "✗", TextColor := Color.gray, Selectable := true }

/-- Spacer cell of `BuildUI`. -/
def spacerCell : Cell := { Text := "", TextColor := Color.primaryText, Selectable := false }

/-- Loop "Add day headers" of `BuildUI`. -/
def addDayHeaders (t : Table) (days : List String) : Table :=
  days.enum.foldl (fun acc cd => acc.SetCell 0 (cd.1 + 1) (dayCell cd.2)) t

/-- Loop "Add status cells for each day" of `BuildUI` for the habit at index
`row`. -/
def addStatusCells (t : Table) (row : Nat) (h : Habit) (days : List String) : Table :=
  days.enum.foldl (fun acc cd => acc.SetCell (row * 2 + 1) (cd.1 + 1) (statusCell h cd.2)) t

/-- Loop `for col := 0; col <= len(ht.Days); col++` of `BuildUI` placing the
spacer row after the habit at index `row`. -/
def addSpacerCells (t : Table) (row numDays : Nat) : Table :=
  (List.range (numDays + 1)).foldl (fun acc col => acc.SetCell (row * 2 + 2) col spacerCell) t

/-- Body of the loop "Add habit rows with extra spacing" of `BuildUI`, for a
habit list of length `n`. -/
def addHabitRow (n : Nat) (days : List String) (t : Table) (rh : Nat × Habit) : Table :=
  let t1 := t.SetCell (rh.1 * 2 + 1) 0 (habitCell rh.2)
  let t2 := addStatusCells t1 rh.1 rh.2 days
  if (rh.1 : Int) < (n : Int) - 1 then addSpacerCells t2 rh.1 days.length else t2

/-- Table built by `BuildUI`. -/
def buildTable (habits : List Habit) (days : List String) : Table :=
  habits.enum.foldl (addHabitRow habits.length days)
    (addDayHeaders (NewTable.SetCell 0 0 headerCell) days)

/-- Method `BuildUI`: the table is replaced by a freshly built one. -/
def BuildUI (ht : HabitTracker) : HabitTracker :=
  { ht with Table := buildTable ht.Habits ht.Days }

/-- The calls `cell := GetCell(row, col)`, `cell.SetText`, `cell.SetTextColor`
of `UpdateUI`: a cell of the table takes the text and colour of `c`. -/
def Table.restyle (t : Table) (row col : Nat) (c : Cell) : Table :=
  match t.cells row col with
  | none => t
  | some old =>
    { t with
      cells := fun r k =>
        if r = row ∧ k = col then some { old with Text := c.Text, TextColor := c.TextColor }
        else t.cells r k }

/-- Method `UpdateUI`. -/
def UpdateUI (ht : HabitTracker) : HabitTracker :=
  { ht with
    Table := ht.Habits.enum.foldl
      (fun acc rh => ht.Days.enum.foldl
        (fun acc2 cd => acc2.restyle (rh.1 * 2 + 1) (cd.1 + 1) (statusCell rh.2 cd.2)) acc)
      ht.Table }

/-- Method `AddHabit`. -/
def AddHabit (now : WeekKey) (ht : HabitTracker) (name color : String) : HabitTracker :=
  BuildUI (SaveData now
    { ht with Habits := ht.Habits ++ [{ Name := name, Color := color, DayResults := makeMap }] })

/-- Index at which the loop of `RemoveHabit` reaches its `break`, if it does. -/
def findHabit (name : String) : List Habit → Option Nat
  | [] => none
  | h :: rest => if h.Name = name then some 0 else (findHabit name rest).map (· + 1)

/-- Method `RemoveHabit`. -/
def RemoveHabit (now : WeekKey) (ht : HabitTracker) (name : String) : HabitTracker :=
  let habits :=
    match findHabit name ht.Habits with
    | some i => ht.Habits.take i ++ ht.Habits.drop (i + 1)
    | none => ht.Habits
  BuildUI (SaveData now { ht with Habits := habits })

/-- Method `ToggleHabit`; `none` is a run-time panic. -/
def ToggleHabit (now : WeekKey) (ht : HabitTracker) (habitIndex : Int) (day : String) :
    Option HabitTracker :=
  if habitIndex < 0 ∨ habitIndex ≥ (ht.Habits.length : Int) then some ht
  else
    match ht.Habits.get? habitIndex.toNat with
    | none => none
    | some h =>
      let current := mapGet h.DayResults day
      match mapAssign h.DayResults day (!current) with
      | none => none
      | some m =>
        some (SaveData now
          { ht with Habits := ht.Habits.set habitIndex.toNat { h with DayResults := m } })

/-! ## Input capture -/

/-- Cases 'h', 'j', 'k', 'l' of the input capture installed by `BuildUI`; any
other rune leaves the selection as it is. -/
def moveCursor (r : Char) (ht : HabitTracker) : HabitTracker :=
  let row := ht.Table.selRow
  let col := ht.Table.selCol
  if r = 'h' then
    if col > 0 then { ht with Table := ht.Table.Select row (col - 1) } else ht
  else if r = 'j' then
    if row < (ht.Table.rowCount : Int) - 1 then
      if row.tmod 2 = 0 then { ht with Table := ht.Table.Select (row + 1) col }
      else { ht with Table := ht.Table.Select (row + 2) col }
    else ht
  else if r = 'k' then
    if row > 1 then
      if row.tmod 2 = 0 then { ht with Table := ht.Table.Select (row - 1) col }
      else { ht with Table := ht.Table.Select (row - 2) col }
    else ht
  else if r = 'l' then
    if col < (ht.Days.length : Int) then { ht with Table := ht.Table.Select row (col + 1) } else ht
  else ht

/-- Guard of the case ' ', 'x' of the input capture. -/
def toggleGuard (row col : Int) : Prop := row > 0 ∧ col > 0 ∧ row.tmod 2 = 1

instance (row col : Int) : Decidable (toggleGuard row col) := by
  unfold toggleGuard; infer_instance

/-- Case ' ', 'x' of the input capture; `none` is a run-time panic. -/
def toggleKey (now : WeekKey) (ht : HabitTracker) : Option HabitTracker :=
  let row := ht.Table.selRow
  let col := ht.Table.selCol
  if toggleGuard row col then
    let habitIndex := (row - 1).tdiv 2
    match ht.Days.get? (col - 1).toNat with
    | none => none
    | some day => (ToggleHabit now ht habitIndex day).map UpdateUI
  else some ht

/-- The four navigation keys. -/
inductive NavKey where
  | h | j | k | l
deriving DecidableEq

/-- Rune of a navigation key. -/
def NavKey.rune : NavKey → Char
  | NavKey.h => 'h'
  | NavKey.j => 'j'
  | NavKey.k => 'k'
  | NavKey.l => 'l'

/-- The loop "If this cell is not selectable, find the next one" of
`tview.Table.Draw`, from row `row`, column `col`: while the row is inside the
table and the cell there is missing or not selectable, the column advances,
wrapping to column 0 of the next row after the last column.  The result is
the position at which the loop exits; `none` when `fuel` iterations do not
reach the exit. -/
def scanSelectable (t : Table) : Nat → Nat → Nat → Option (Nat × Nat)
  | 0, _, _ => none
  | fuel + 1, row, col =>
    if row < t.rowCount then
      if (match t.cells row col with
          | some c => c.Selectable
          | none => false) then some (row, col)
      else if ((col : Int) + 1 > (t.colCount : Int) - 1) then scanSelectable t fuel (row + 1) 0
      else scanSelectable t fuel row (col + 1)
    else some (row, col)

/-- Selection part of `tview.Table.Draw` for a table with selectable rows and
columns, as `BuildUI` sets it up: a negative selected row or column becomes 0
and the selection moves to the exit position of the loop above.  The loop
makes at most one iteration per cell position and one more, which is the fuel
given. -/
def Table.Draw (t : Table) : Option Table :=
  let col := if t.selCol < 0 then 0 else t.selCol
  let row := if t.selRow < 0 then 0 else t.selRow
  (scanSelectable t (t.rowCount * (t.colCount + 1) + 1) row.toNat col.toNat).map
    (fun pos => { t with selRow := (pos.1 : Int), selCol := (pos.2 : Int) })

/-- The tracker as the first key press finds it: `BuildUI` leaves the
selection of the new table untouched, and the application draws the table
before it handles a key. -/
def firstDraw (ht : HabitTracker) : Option HabitTracker :=
  (BuildUI ht).Table.Draw.map (fun t => { BuildUI ht with Table := t })

/-- One navigation key press: the input capture handles the key, then the
application draws the table again. -/
def pressKey (key : NavKey) (ht : HabitTracker) : Option HabitTracker :=
  (moveCursor key.rune ht).Table.Draw.map (fun t => { moveCursor key.rune ht with Table := t })

/-- The tracker after a sequence of navigation key presses. -/
def pressKeys : List NavKey → HabitTracker → Option HabitTracker
  | [], ht => some ht
  | key :: rest, ht =>
    match pressKey key ht with
    | none => none
    | some next => pressKeys rest next

/-- Rows 1, 3, ..., 2n-1 of a table for `n` habits. -/
def isContentRow (n : Nat) (row : Int) : Prop :=
  row % 2 = 1 ∧ 1 ≤ row ∧ row ≤ 2 * (n : Int) - 1

/-! ## Closed forms used in the proofs about `BuildUI` -/

/-- Cell that one pass of the habit loop of `BuildUI` stores at row `r`,
column `c`, for the habit `h` at index `i` of `n`, if it stores one there. -/
def rowWrites (n : Nat) (days : List String) (i : Nat) (h : Habit) (r c : Nat) : Option Cell :=
  if r = i * 2 + 1 then
    if c = 0 then some (habitCell h)
    else if c ≤ days.length then (days.get? (c - 1)).map (statusCell h)
    else none
  else if r = i * 2 + 2 ∧ i + 1 < n ∧ c ≤ days.length then some spacerCell
  else none

/-- Cell that the habit loop of `BuildUI`, run over the habits `hs` at indices
`k`, `k+1`, ..., stores last at row `r`, column `c`, if it stores one there. -/
def loopWrites (n : Nat) (days : List String) : Nat → List Habit → Nat → Nat → Option Cell
  | _, [], _, _ => none
  | k, h :: rest, r, c =>
    match loopWrites n days (k + 1) rest r c with
    | some x => some x
    | none => rowWrites n days k h r c

/-- The tracker after `BuildUI` with the selection at row `r`, column `c`. -/
def cursorAt (ht : HabitTracker) (r c : Int) : HabitTracker :=
  { BuildUI ht with Table := (buildTable ht.Habits ht.Days).Select r c }

/-- Cursor positions the navigation keys keep to once the table is drawn, for
`n` habits and `d` days: an odd row from 1 to 2n-1 (row 1 when there is no
habit) and a column from 0 to `d`. -/
def cursorOk (n d : Nat) (row col : Int) : Prop :=
  row % 2 = 1 ∧ 1 ≤ row ∧ row ≤ max 1 (2 * (n : Int) - 1) ∧ 0 ≤ col ∧ col ≤ (d : Int)

/-- Number read from a list of decimal digit characters, continuing from
`acc`. -/
def decimalValue (acc : Nat) (cs : List Char) : Nat :=
  cs.foldl (fun a c => a * 10 + (c.toNat - 48)) acc

/-- Map that `json.Unmarshal` builds from the document `marshalDays m`. -/
def reloadDays : DayMap → DayMap
  | none => none
  | some es =>
    some (((mapEntries es).insertionSort keyLE).foldl (fun m e => entriesSet m e.1 e.2) [])

/-- Habit that `json.Unmarshal` builds from the document `marshalHabit h`. -/
def reloadHabit (h : Habit) : Habit :=
  { h with DayResults := reloadDays h.DayResults }

/-! ## Sample inputs -/

/-- Week 10 of 2024. -/
def week10 : WeekKey := { year := 2024, week := 10 }

/-- Week 11 of 2024. -/
def week11 : WeekKey := { year := 2024, week := 11 }

/-- The tracker of `NewHabitTracker` on an empty data directory. -/
def defaultTracker : HabitTracker := NewHabitTracker "/home/u" (fun _ => none)

/-- A tracker without habits on an empty data directory. -/
def emptyTracker : HabitTracker := { defaultTracker with Habits := [] }

/-- Week file holding one habit object without a `days` member. -/
def noDaysFile : Json :=
  Json.arr [Json.obj [("name", Json.str "a"), ("color", Json.str "blue")]]

/-! ## Lemmas on the table built by `BuildUI` -/

theorem SetCell_cells (t : Table) (row col : Nat) (x : Cell) (r k : Nat) :
    (t.SetCell row col x).cells r k = if r = row ∧ k = col then some x else t.cells r k := rfl

theorem SetCell_rowCount (t : Table) (row col : Nat) (x : Cell) :
    (t.SetCell row col x).rowCount = max t.rowCount (row + 1) := rfl

theorem foldl_setCell_enumFrom (R : Nat) (f : String → Cell) :
    ∀ (days : List String) (k : Nat) (t : Table),
      (∀ r c, ((days.enumFrom k).foldl (fun acc cd => acc.SetCell R (cd.1 + 1) (f cd.2)) t).cells r c
          = if r = R ∧ k + 1 ≤ c ∧ c < k + 1 + days.length
            then (days.get? (c - (k + 1))).map f else t.cells r c) ∧
      ((days.enumFrom k).foldl (fun acc cd => acc.SetCell R (cd.1 + 1) (f cd.2)) t).rowCount
          = (if days = [] then t.rowCount else max t.rowCount (R + 1)) := by
  intro days
  induction days with
  | nil =>
    intro k t
    refine ⟨?_, by simp⟩
    intro r c
    have h : ¬ (r = R ∧ k + 1 ≤ c ∧ c < k + 1 + ([] : List String).length) := by
      simp only [List.length_nil]; omega
    rw [if_neg h]; rfl
  | cons d rest ih =>
    intro k t
    simp only [List.enumFrom_cons, List.foldl_cons]
    obtain ⟨ih1, ih2⟩ := ih (k + 1) (t.SetCell R (k + 1) (f d))
    refine ⟨?_, ?_⟩
    · intro r c
      rw [ih1]
      simp only [Table.SetCell, List.length_cons]
      by_cases hr : r = R
      · subst hr
        by_cases hc : c = k + 1
        · subst hc
          simp
        · by_cases h2 : k + 1 + 1 ≤ c ∧ c < k + 1 + 1 + rest.length
          · have h3 : k + 1 ≤ c ∧ c < k + 1 + (rest.length + 1) := by omega
            have h4 : c - (k + 1) = (c - (k + 1 + 1)) + 1 := by omega
            simp only [h2, h3, and_self, true_and, if_true]
            rw [h4]
            simp
          · have h3 : ¬ (k + 1 ≤ c ∧ c < k + 1 + (rest.length + 1)) := by omega
            simp [h2, h3, hc]
      · simp [hr]
    · rw [ih2]
      simp only [Table.SetCell]
      split <;> simp [Nat.max_assoc]

theorem addStatusCells_cells (t : Table) (row : Nat) (h : Habit) (days : List String)
    (r c : Nat) :
    (addStatusCells t row h days).cells r c
      = if r = row * 2 + 1 ∧ 1 ≤ c ∧ c ≤ days.length
        then (days.get? (c - 1)).map (statusCell h) else t.cells r c := by
  unfold addStatusCells List.enum
  rw [(foldl_setCell_enumFrom (row * 2 + 1) (statusCell h) days 0 t).1]
  have e : (r = row * 2 + 1 ∧ 0 + 1 ≤ c ∧ c < 0 + 1 + days.length)
      ↔ (r = row * 2 + 1 ∧ 1 ≤ c ∧ c ≤ days.length) := by omega
  simp only [e, Nat.zero_add]

theorem addStatusCells_rowCount (t : Table) (row : Nat) (h : Habit) (days : List String) :
    (addStatusCells t row h days).rowCount
      = if days = [] then t.rowCount else max t.rowCount (row * 2 + 2) := by
  unfold addStatusCells List.enum
  rw [(foldl_setCell_enumFrom (row * 2 + 1) (statusCell h) days 0 t).2]

theorem foldl_spacer (R : Nat) :
    ∀ (m : Nat) (t : Table),
      (∀ r c, ((List.range m).foldl (fun acc col => acc.SetCell R col spacerCell) t).cells r c
          = if r = R ∧ c < m then some spacerCell else t.cells r c) ∧
      ((List.range m).foldl (fun acc col => acc.SetCell R col spacerCell) t).rowCount
          = (if m = 0 then t.rowCount else max t.rowCount (R + 1)) := by
  intro m
  induction m with
  | zero => intro t; simp
  | succ m ih =>
    intro t
    obtain ⟨ih1, ih2⟩ := ih t
    simp only [List.range_succ, List.foldl_append, List.foldl_cons, List.foldl_nil]
    refine ⟨?_, ?_⟩
    · intro r c
      rw [SetCell_cells, ih1]
      by_cases hr : r = R
      · by_cases hc : c = m
        · simp [hr, hc]
        · by_cases h2 : c < m
          · have h3 : c < m + 1 := by omega
            simp [hr, hc, h2, h3]
          · have h3 : ¬ c < m + 1 := by omega
            simp [hr, hc, h2, h3]
      · simp [hr]
    · rw [SetCell_rowCount, ih2]
      split <;> simp

theorem addSpacerCells_cells (t : Table) (row numDays r c : Nat) :
    (addSpacerCells t row numDays).cells r c
      = if r = row * 2 + 2 ∧ c ≤ numDays then some spacerCell else t.cells r c := by
  unfold addSpacerCells
  rw [(foldl_spacer (row * 2 + 2) (numDays + 1) t).1]
  simp only [Nat.lt_succ_iff]

theorem addSpacerCells_rowCount (t : Table) (row numDays : Nat) :
    (addSpacerCells t row numDays).rowCount = max t.rowCount (row * 2 + 3) := by
  unfold addSpacerCells
  rw [(foldl_spacer (row * 2 + 2) (numDays + 1) t).2]
  simp

theorem addHabitRow_cells (n : Nat) (days : List String) (t : Table) (i : Nat) (h : Habit)
    (r c : Nat) :
    (addHabitRow n days t (i, h)).cells r c
      = match rowWrites n days i h r c with
        | some x => some x
        | none => t.cells r c := by
  have hn : ((i : Int) < (n : Int) - 1) ↔ i + 1 < n := by omega
  unfold addHabitRow rowWrites
  simp only [hn]
  by_cases h1 : r = i * 2 + 1
  · have h2 : ¬ r = i * 2 + 2 := by omega
    by_cases h3 : c = 0
    · split <;>
        simp [addSpacerCells_cells, addStatusCells_cells, SetCell_cells, h1, h3]
    · by_cases h4 : c ≤ days.length
      · have h5 : 1 ≤ c := by omega
        have h6 : c - 1 < days.length := by omega
        split <;>
          simp [addSpacerCells_cells, addStatusCells_cells, SetCell_cells, h1, h3, h4, h5,
            List.getElem?_eq_getElem h6]
      · split <;>
          simp [addSpacerCells_cells, addStatusCells_cells, SetCell_cells, h1, h3, h4]
  · by_cases h2 : r = i * 2 + 2
    · by_cases h3 : i + 1 < n
      · by_cases h4 : c ≤ days.length
        · simp [addSpacerCells_cells, h1, h2, h3, h4]
        · simp [addSpacerCells_cells, addStatusCells_cells, SetCell_cells, h2, h3, h4]
      · simp [addStatusCells_cells, SetCell_cells, h2, h3]
    · split <;>
        simp [addSpacerCells_cells, addStatusCells_cells, SetCell_cells, h1, h2]

theorem addHabitRow_rowCount (n : Nat) (days : List String) (t : Table) (i : Nat) (h : Habit) :
    (addHabitRow n days t (i, h)).rowCount
      = max t.rowCount (if i + 1 < n then i * 2 + 3 else i * 2 + 2) := by
  have hn : ((i : Int) < (n : Int) - 1) ↔ i + 1 < n := by omega
  unfold addHabitRow
  simp only [hn]
  by_cases h3 : i + 1 < n
  · simp only [h3, if_true, addSpacerCells_rowCount, addStatusCells_rowCount, SetCell_rowCount]
    split <;> omega
  · simp only [h3, if_false, addStatusCells_rowCount, SetCell_rowCount]
    split <;> omega

theorem habitLoop_cells (n : Nat) (days : List String) :
    ∀ (hs : List Habit) (k : Nat) (t : Table) (r c : Nat),
      ((hs.enumFrom k).foldl (addHabitRow n days) t).cells r c
        = match loopWrites n days k hs r c with
          | some x => some x
          | none => t.cells r c := by
  intro hs
  induction hs with
  | nil => intro k t r c; simp [loopWrites]
  | cons h rest ih =>
    intro k t r c
    simp only [List.enumFrom_cons, List.foldl_cons]
    rw [ih, addHabitRow_cells]
    simp only [loopWrites]
    cases loopWrites n days (k + 1) rest r c <;> rfl

theorem habitLoop_rowCount (n : Nat) (days : List String) :
    ∀ (hs : List Habit) (k : Nat) (t : Table), n = k + hs.length → hs ≠ [] →
      ((hs.enumFrom k).foldl (addHabitRow n days) t).rowCount = max t.rowCount (2 * n) := by
  intro hs
  induction hs with
  | nil => intro k t _ hne; exact absurd rfl hne
  | cons h rest ih =>
    intro k t hn _
    simp only [List.enumFrom_cons, List.foldl_cons]
    simp only [List.length_cons] at hn
    cases rest with
    | nil =>
      simp only [List.enumFrom_nil, List.foldl_nil, addHabitRow_rowCount]
      simp only [List.length_nil] at hn
      have h3 : ¬ k + 1 < n := by omega
      simp only [h3, if_false]
      omega
    | cons h2 rest2 =>
      rw [ih (k + 1) _ (by simp only [List.length_cons] at hn ⊢; omega) (by simp)]
      rw [addHabitRow_rowCount]
      simp only [List.length_cons] at hn
      have h3 : k + 1 < n := by omega
      simp only [h3, if_true]
      omega

theorem header_cells (days : List String) (r c : Nat) (hr : 1 ≤ r) :
    (addDayHeaders (NewTable.SetCell 0 0 headerCell) days).cells r c = none := by
  unfold addDayHeaders List.enum
  rw [(foldl_setCell_enumFrom 0 dayCell days 0 _).1, SetCell_cells]
  have h0 : ¬ r = 0 := by omega
  simp [h0, NewTable]

theorem header_rowCount (days : List String) :
    (addDayHeaders (NewTable.SetCell 0 0 headerCell) days).rowCount = 1 := by
  unfold addDayHeaders List.enum
  rw [(foldl_setCell_enumFrom 0 dayCell days 0 _).2, SetCell_rowCount]
  split <;> simp [NewTable]

theorem buildTable_rowCount (hs : List Habit) (days : List String) :
    (buildTable hs days).rowCount = if hs.length = 0 then 1 else 2 * hs.length := by
  unfold buildTable List.enum
  cases hs with
  | nil => simp [header_rowCount]
  | cons h rest =>
    rw [habitLoop_rowCount _ days (h :: rest) 0 _ (by simp) (by simp), header_rowCount]
    simp only [List.length_cons]
    split <;> omega

theorem buildTable_cells (hs : List Habit) (days : List String) (r c : Nat) (hr : 1 ≤ r) :
    (buildTable hs days).cells r c = loopWrites hs.length days 0 hs r c := by
  unfold buildTable List.enum
  rw [habitLoop_cells, header_cells days r c hr]
  cases loopWrites hs.length days 0 hs r c <;> rfl

theorem loopWrites_below (n : Nat) (days : List String) :
    ∀ (hs : List Habit) (k r c : Nat), r < k * 2 + 1 → loopWrites n days k hs r c = none := by
  intro hs
  induction hs with
  | nil => intro k r c _; rfl
  | cons h rest ih =>
    intro k r c hr
    have h1 : ¬ r = k * 2 + 1 := by omega
    have h2 : ¬ r = k * 2 + 2 := by omega
    simp [loopWrites, ih (k + 1) r c (by omega), rowWrites, h1, h2]

theorem loopWrites_content (n : Nat) (days : List String) :
    ∀ (hs : List Habit) (k i c : Nat) (hi : i < hs.length),
      loopWrites n days k hs ((k + i) * 2 + 1) c
        = rowWrites n days (k + i) hs[i] ((k + i) * 2 + 1) c := by
  intro hs
  induction hs with
  | nil => intro k i c hi; simp at hi
  | cons h rest ih =>
    intro k i c hi
    cases i with
    | zero =>
      simp only [loopWrites, Nat.add_zero, List.getElem_cons_zero]
      rw [loopWrites_below n days rest (k + 1) (k * 2 + 1) c (by omega)]
    | succ j =>
      have hj : j < rest.length := by simpa using hi
      have e : k + (j + 1) = (k + 1) + j := by omega
      simp only [loopWrites, List.getElem_cons_succ, e]
      rw [ih (k + 1) j c hj]
      have h1 : ¬ (k + 1 + j) * 2 + 1 = k * 2 + 1 := by omega
      have h2 : ¬ (k + 1 + j) * 2 + 1 = k * 2 + 2 := by omega
      have h3 : (k + 1 + j) * 2 + 1 = (k + 1 + j) * 2 + 1 := rfl
      cases hw : rowWrites n days (k + 1 + j) rest[j] ((k + 1 + j) * 2 + 1) c with
      | some x => rfl
      | none => simp [rowWrites, h1, h2]

theorem statusCell_ne_spacer (h : Habit) (day : String) : statusCell h day ≠ spacerCell := by
  unfold statusCell spacerCell
  split <;> simp

theorem rowWrites_spacer (n : Nat) (days : List String) (i : Nat) (h : Habit) (r c : Nat) :
    rowWrites n days i h r c = some spacerCell
      ↔ (r = i * 2 + 2 ∧ i + 1 < n ∧ c ≤ days.length) := by
  unfold rowWrites
  by_cases h1 : r = i * 2 + 1
  · have h2 : ¬ r = i * 2 + 2 := by omega
    by_cases h3 : c = 0
    · simp [h1, h3, habitCell, spacerCell]
    · by_cases h4 : c ≤ days.length
      · have h6 : c - 1 < days.length := by omega
        simp [h1, h3, h4, List.getElem?_eq_getElem h6, statusCell_ne_spacer]
      · simp [h1, h3, h4]
  · by_cases h2 : r = i * 2 + 2 ∧ i + 1 < n ∧ c ≤ days.length
    · simp [h1, h2]
    · simp [h1, h2]

theorem loopWrites_spacer (n : Nat) (days : List String) :
    ∀ (hs : List Habit) (k r c : Nat),
      loopWrites n days k hs r c = some spacerCell
        ↔ ∃ i, i < hs.length ∧ r = (k + i) * 2 + 2 ∧ k + i + 1 < n ∧ c ≤ days.length := by
  intro hs
  induction hs with
  | nil => intro k r c; simp [loopWrites]
  | cons h rest ih =>
    intro k r c
    simp only [loopWrites, List.length_cons]
    by_cases hlow : r < (k + 1) * 2 + 1
    · rw [loopWrites_below n days rest (k + 1) r c hlow]
      simp only [rowWrites_spacer]
      constructor
      · rintro ⟨h1, h2, h3⟩
        exact ⟨0, by omega, by simpa using h1, by simpa using h2, h3⟩
      · rintro ⟨i, _, h1, h2, h3⟩
        have hi : i = 0 := by omega
        subst hi
        exact ⟨by simpa using h1, by simpa using h2, h3⟩
    · have hrw : rowWrites n days k h r c = none := by
        have h1 : ¬ r = k * 2 + 1 := by omega
        have h2 : ¬ r = k * 2 + 2 := by omega
        simp [rowWrites, h1, h2]
      have key : (match loopWrites n days (k + 1) rest r c with
          | some x => some x
          | none => rowWrites n days k h r c) = loopWrites n days (k + 1) rest r c := by
        cases loopWrites n days (k + 1) rest r c with
        | some x => rfl
        | none => exact hrw
      rw [key, ih (k + 1) r c]
      constructor
      · rintro ⟨i, h0, h1, h2, h3⟩
        exact ⟨i + 1, by omega, by rw [h1]; ring, by omega, h3⟩
      · rintro ⟨i, h0, h1, h2, h3⟩
        have hi : 1 ≤ i := by
          by_contra hc
          have : i = 0 := by omega
          subst this
          omega
        exact ⟨i - 1, by omega, by rw [h1]; congr 2; omega, by omega, h3⟩

/-! ## Row geometry -/

/-- C7: for every habit list (of any length n, zero included) and day list,
the table built by BuildUI holds the name cell of habit i at row 2i+1, column
0, and its status cell for day c at row 2i+1, column c+1; a row below the
header holds spacer cells exactly when it is row 2i+2 for some i with
i + 1 < n; and the number of rows below the header row is max(0, 2n-1). -/
theorem C7_row_geometry (ht : HabitTracker) :
    (∀ (i : Nat) (hi : i < ht.Habits.length),
      (BuildUI ht).Table.cells (2 * i + 1) 0 = some (habitCell ht.Habits[i]) ∧
      ∀ (c : Nat) (hc : c < ht.Days.length),
        (BuildUI ht).Table.cells (2 * i + 1) (c + 1)
          = some (statusCell ht.Habits[i] ht.Days[c])) ∧
    (∀ r c : Nat, 1 ≤ r → c ≤ ht.Days.length →
      ((BuildUI ht).Table.cells r c = some spacerCell
        ↔ ∃ i, i + 1 < ht.Habits.length ∧ r = 2 * i + 2)) ∧
    ((BuildUI ht).Table.rowCount : Int) - 1 = max 0 (2 * (ht.Habits.length : Int) - 1) := by
  refine ⟨?_, ?_, ?_⟩
  · intro i hi
    have e : 2 * i + 1 = (0 + i) * 2 + 1 := by omega
    refine ⟨?_, ?_⟩
    · show (buildTable ht.Habits ht.Days).cells (2 * i + 1) 0 = _
      rw [buildTable_cells _ _ _ _ (by omega), e, loopWrites_content _ _ _ 0 i 0 hi]
      simp [rowWrites]
    · intro c hc
      show (buildTable ht.Habits ht.Days).cells (2 * i + 1) (c + 1) = _
      rw [buildTable_cells _ _ _ _ (by omega), e, loopWrites_content _ _ _ 0 i (c + 1) hi]
      have h4 : c + 1 ≤ ht.Days.length := by omega
      simp [rowWrites, h4, List.getElem?_eq_getElem hc]
  · intro r c hr hc
    show (buildTable ht.Habits ht.Days).cells r c = _ ↔ _
    rw [buildTable_cells _ _ _ _ hr, loopWrites_spacer]
    constructor
    · rintro ⟨i, _, h1, h2, _⟩
      exact ⟨i, by omega, by omega⟩
    · rintro ⟨i, h1, h2⟩
      exact ⟨i, by omega, by omega, by omega, hc⟩
  · show ((buildTable ht.Habits ht.Days).rowCount : Int) - 1 = _
    rw [buildTable_rowCount]
    split
    · rename_i h0
      simp [h0]
    · rename_i h0
      have : 1 ≤ ht.Habits.length := by omega
      rw [max_eq_right (by omega)]
      push_cast
      omega

/-! ## Cursor navigation -/

theorem moveCursor_frame (r : Char) (ht : HabitTracker) :
    (moveCursor r ht).Habits = ht.Habits ∧ (moveCursor r ht).Days = ht.Days ∧
    (moveCursor r ht).Table.rowCount = ht.Table.rowCount ∧
    (moveCursor r ht).Files = ht.Files ∧ (moveCursor r ht).DataDir = ht.DataDir := by
  unfold moveCursor
  simp only [Table.Select]
  split_ifs <;> simp

theorem moveCursor_h (ht : HabitTracker) :
    moveCursor 'h' ht
      = if ht.Table.selCol > 0 then
          { ht with Table := ht.Table.Select ht.Table.selRow (ht.Table.selCol - 1) }
        else ht := rfl

theorem moveCursor_j (ht : HabitTracker) :
    moveCursor 'j' ht
      = if ht.Table.selRow < (ht.Table.rowCount : Int) - 1 then
          if ht.Table.selRow.tmod 2 = 0 then
            { ht with Table := ht.Table.Select (ht.Table.selRow + 1) ht.Table.selCol }
          else { ht with Table := ht.Table.Select (ht.Table.selRow + 2) ht.Table.selCol }
        else ht := rfl

theorem moveCursor_k (ht : HabitTracker) :
    moveCursor 'k' ht
      = if ht.Table.selRow > 1 then
          if ht.Table.selRow.tmod 2 = 0 then
            { ht with Table := ht.Table.Select (ht.Table.selRow - 1) ht.Table.selCol }
          else { ht with Table := ht.Table.Select (ht.Table.selRow - 2) ht.Table.selCol }
        else ht := rfl

theorem moveCursor_l (ht : HabitTracker) :
    moveCursor 'l' ht
      = if ht.Table.selCol < (ht.Days.length : Int) then
          { ht with Table := ht.Table.Select ht.Table.selRow (ht.Table.selCol + 1) }
        else ht := rfl

/-- C4: for every tracker with n >= 1 habits, every content row r (odd, between
1 and 2n-1) and every column, on the table built by BuildUI with the cursor
at (r, col) the row selected after the key k (up) and after the key j (down)
is again a content row, and the column is kept. -/
theorem C4_updown_content_row (ht : HabitTracker) (r col : Int)
    (hn : 1 ≤ ht.Habits.length) (hr : isContentRow ht.Habits.length r) :
    isContentRow ht.Habits.length
      (moveCursor 'k' { BuildUI ht with Table := (BuildUI ht).Table.Select r col }).Table.selRow ∧
    isContentRow ht.Habits.length
      (moveCursor 'j' { BuildUI ht with Table := (BuildUI ht).Table.Select r col }).Table.selRow ∧
    (moveCursor 'k' { BuildUI ht with Table := (BuildUI ht).Table.Select r col }).Table.selCol
      = col ∧
    (moveCursor 'j' { BuildUI ht with Table := (BuildUI ht).Table.Select r col }).Table.selCol
      = col := by
  obtain ⟨h1, h2, h3⟩ := hr
  have hrc : (buildTable ht.Habits ht.Days).rowCount = 2 * ht.Habits.length := by
    rw [buildTable_rowCount]
    split <;> omega
  have hm : r.tmod 2 = 1 := by
    rw [Int.tmod_eq_emod (by omega) (by omega)]; exact h1
  have hm0 : ¬ r.tmod 2 = 0 := by omega
  simp only [moveCursor_k, moveCursor_j, BuildUI, Table.Select, hrc, hm0, if_false,
    isContentRow]
  refine ⟨?_, ?_, ?_, ?_⟩
  · split_ifs <;> simp <;> omega
  · split_ifs <;> simp <;> push_cast at * <;> omega
  · split_ifs <;> simp
  · split_ifs <;> simp

theorem C4_updown_content_row_witness :
    (1 ≤ defaultTracker.Habits.length ∧ isContentRow defaultTracker.Habits.length 3) ∧
    isContentRow defaultTracker.Habits.length
      (moveCursor 'k'
        { BuildUI defaultTracker with
          Table := (BuildUI defaultTracker).Table.Select 3 2 }).Table.selRow ∧
    isContentRow defaultTracker.Habits.length
      (moveCursor 'j'
        { BuildUI defaultTracker with
          Table := (BuildUI defaultTracker).Table.Select 3 2 }).Table.selRow ∧
    (moveCursor 'k'
        { BuildUI defaultTracker with
          Table := (BuildUI defaultTracker).Table.Select 3 2 }).Table.selCol = 2 ∧
    (moveCursor 'j'
        { BuildUI defaultTracker with
          Table := (BuildUI defaultTracker).Table.Select 3 2 }).Table.selCol = 2 :=
  ⟨⟨by decide, by unfold isContentRow; decide⟩,
    C4_updown_content_row defaultTracker 3 2 (by decide) (by unfold isContentRow; decide)⟩

/-! ## The toggle target -/

theorem foldl_keeps {β : Type} (P : Table → Prop) (f : Table → β → Table)
    (hf : ∀ t x, P t → P (f t x)) : ∀ (l : List β) (t : Table), P t → P (l.foldl f t) := by
  intro l
  induction l with
  | nil => intro t h; exact h
  | cons x rest ih => intro t h; exact ih (f t x) (hf t x h)

theorem buildTable_selection (hs : List Habit) (days : List String) :
    (buildTable hs days).selRow = 0 ∧ (buildTable hs days).selCol = 0 := by
  have hset : ∀ (t : Table) (r c : Nat) (x : Cell),
      (t.selRow = 0 ∧ t.selCol = 0) → ((t.SetCell r c x).selRow = 0 ∧ (t.SetCell r c x).selCol = 0) :=
    fun t r c x h => h
  unfold buildTable
  apply foldl_keeps (fun t => t.selRow = 0 ∧ t.selCol = 0)
  · intro t rh h
    unfold addHabitRow
    have h1 := hset t (rh.1 * 2 + 1) 0 (habitCell rh.2) h
    have h2 : (addStatusCells (t.SetCell (rh.1 * 2 + 1) 0 (habitCell rh.2)) rh.1 rh.2 days).selRow = 0 ∧
        (addStatusCells (t.SetCell (rh.1 * 2 + 1) 0 (habitCell rh.2)) rh.1 rh.2 days).selCol = 0 := by
      unfold addStatusCells
      exact foldl_keeps (fun t => t.selRow = 0 ∧ t.selCol = 0) _ (fun t x h => hset t _ _ _ h) _ _ h1
    split
    · unfold addSpacerCells
      exact foldl_keeps (fun t => t.selRow = 0 ∧ t.selCol = 0) _ (fun t x h => hset t _ _ _ h) _ _ h2
    · exact h2
  · unfold addDayHeaders
    exact foldl_keeps (fun t => t.selRow = 0 ∧ t.selCol = 0) _ (fun t x h => hset t _ _ _ h) _ _
      ⟨rfl, rfl⟩

theorem header_row_cells (hs : List Habit) (days : List String) (c : Nat) :
    (match (buildTable hs days).cells 0 c with
      | some x => x.Selectable
      | none => false) = false := by
  unfold buildTable List.enum
  rw [habitLoop_cells, loopWrites_below _ _ _ 0 0 c (by omega)]
  unfold addDayHeaders List.enum
  simp only [(foldl_setCell_enumFrom 0 dayCell days 0 _).1, SetCell_cells]
  by_cases h1 : 0 + 1 ≤ c ∧ c < 0 + 1 + days.length
  · have hlt : c - (0 + 1) < days.length := by omega
    simp [h1, List.getElem?_eq_getElem hlt, dayCell]
  · by_cases h0 : c = 0
    · simp [h1, h0, headerCell]
    · simp [h1, h0, NewTable]

theorem content_cell_selectable (hs : List Habit) (days : List String) (i c : Nat)
    (hi : i < hs.length) (hc : c ≤ days.length) :
    (match (buildTable hs days).cells (2 * i + 1) c with
      | some x => x.Selectable
      | none => false) = true := by
  have e : 2 * i + 1 = (0 + i) * 2 + 1 := by omega
  rw [buildTable_cells _ _ _ _ (by omega), e, loopWrites_content _ _ _ 0 i c hi]
  by_cases h0 : c = 0
  · simp [rowWrites, h0, habitCell]
  · have hlt : c - 1 < days.length := by omega
    simp only [rowWrites, if_true, h0, if_false, hc, List.get?_eq_getElem?,
      List.getElem?_eq_getElem hlt, Option.map_some']
    unfold statusCell
    split <;> rfl

theorem scanSelectable_succ (t : Table) (fuel row col : Nat) :
    scanSelectable t (fuel + 1) row col
      = if row < t.rowCount then
          if (match t.cells row col with
              | some c => c.Selectable
              | none => false) then some (row, col)
          else if ((col : Int) + 1 > (t.colCount : Int) - 1) then
            scanSelectable t fuel (row + 1) 0
          else scanSelectable t fuel row (col + 1)
        else some (row, col) := rfl

theorem scan_header_row (t : Table)
    (hrow0 : ∀ c, (match t.cells 0 c with
      | some x => x.Selectable
      | none => false) = false)
    (hrc : 0 < t.rowCount) :
    ∀ (k c fuel : Nat), t.colCount - (c + 1) = k →
      scanSelectable t (fuel + (k + 1)) 0 c = scanSelectable t fuel 1 0 := by
  intro k
  induction k with
  | zero =>
    intro c fuel hk
    show scanSelectable t (fuel + 1) 0 c = _
    have hadv : (c : Int) + 1 > (t.colCount : Int) - 1 := by omega
    rw [scanSelectable_succ, if_pos hrc, hrow0 c, if_neg (by simp), if_pos hadv]
  | succ k ih =>
    intro c fuel hk
    show scanSelectable t ((fuel + (k + 1)) + 1) 0 c = _
    have hadv : ¬ ((c : Int) + 1 > (t.colCount : Int) - 1) := by omega
    have hk2 : t.colCount - (c + 1 + 1) = k := by omega
    rw [scanSelectable_succ, if_pos hrc, hrow0 c, if_neg (by simp), if_neg hadv]
    exact ih (c + 1) fuel hk2

theorem buildTable_Draw (hs : List Habit) (days : List String) :
    (buildTable hs days).Draw = some ((buildTable hs days).Select 1 0) := by
  obtain ⟨hr, hc⟩ := buildTable_selection hs days
  have hrc := buildTable_rowCount hs days
  have hpos : 0 < (buildTable hs days).rowCount := by
    rw [hrc]; split <;> omega
  have hmul : (buildTable hs days).colCount + 1
      ≤ (buildTable hs days).rowCount * ((buildTable hs days).colCount + 1) :=
    Nat.le_mul_of_pos_left _ hpos
  obtain ⟨f2, hf2⟩ : ∃ f2, (buildTable hs days).rowCount * ((buildTable hs days).colCount + 1) + 1
      = (f2 + 1) + (((buildTable hs days).colCount - (0 + 1)) + 1) :=
    ⟨(buildTable hs days).rowCount * ((buildTable hs days).colCount + 1) + 1
      - (((buildTable hs days).colCount - (0 + 1)) + 2), by omega⟩
  have hscan : scanSelectable (buildTable hs days)
      ((buildTable hs days).rowCount * ((buildTable hs days).colCount + 1) + 1) 0 0
        = some (1, 0) := by
    rw [hf2, scan_header_row _ (header_row_cells hs days) hpos _ 0 (f2 + 1) rfl]
    simp only [scanSelectable]
    by_cases h1 : 1 < (buildTable hs days).rowCount
    · have hn : 0 < hs.length := by
        rw [hrc] at h1
        split at h1 <;> omega
      have hsel := content_cell_selectable hs days 0 0 hn (Nat.zero_le _)
      simp only [Nat.mul_zero, Nat.zero_add] at hsel
      simp only [h1, if_true, hsel]
    · simp only [h1, if_false]
  unfold Table.Draw
  simp only [hr, hc, lt_self_iff_false, if_false, Int.toNat_zero, hscan, Option.map_some']
  rfl

theorem cursor_Draw (hs : List Habit) (days : List String) (r c : Int)
    (hok : cursorOk hs.length days.length r c) :
    ((buildTable hs days).Select r c).Draw = some ((buildTable hs days).Select r c) := by
  obtain ⟨h1, h2, h3, h4, h5⟩ := hok
  have hrc := buildTable_rowCount hs days
  have hscan : ∀ fuel, scanSelectable ((buildTable hs days).Select r c) (fuel + 1) r.toNat c.toNat
      = some (r.toNat, c.toNat) := by
    intro fuel
    simp only [scanSelectable]
    by_cases hlt : r.toNat < ((buildTable hs days).Select r c).rowCount
    · have hlt2 : r.toNat < (buildTable hs days).rowCount := hlt
      rw [hrc] at hlt2
      have hn : ¬ hs.length = 0 := by
        intro h0
        rw [h0] at hlt2
        simp at hlt2
        omega
      simp only [hn, if_false] at hlt2
      have hrow : r.toNat = 2 * ((r.toNat - 1) / 2) + 1 := by omega
      have hsel := content_cell_selectable hs days ((r.toNat - 1) / 2) c.toNat
        (by omega) (by omega)
      rw [← hrow] at hsel
      have hsel2 : (match ((buildTable hs days).Select r c).cells r.toNat c.toNat with
          | some x => x.Selectable
          | none => false) = true := hsel
      simp only [hlt, if_true, hsel2]
    · simp only [hlt, if_false]
  unfold Table.Draw
  have hr0 : ¬ ((buildTable hs days).Select r c).selRow < 0 := by
    show ¬ r < 0
    omega
  have hc0 : ¬ ((buildTable hs days).Select r c).selCol < 0 := by
    show ¬ c < 0
    omega
  simp only [hr0, hc0, if_false]
  have hsr : ((buildTable hs days).Select r c).selRow = r := rfl
  have hsc : ((buildTable hs days).Select r c).selCol = c := rfl
  rw [hsr, hsc, hscan, Option.map_some']
  simp only [Int.toNat_of_nonneg (by omega : (0 : Int) ≤ r), Int.toNat_of_nonneg h4]
  rfl

theorem firstDraw_cursorAt (ht : HabitTracker) : firstDraw ht = some (cursorAt ht 1 0) := by
  unfold firstDraw
  show ((buildTable ht.Habits ht.Days).Draw).map _ = _
  rw [buildTable_Draw]
  rfl

theorem moveCursor_cursorAt (key : NavKey) (ht : HabitTracker) (r c : Int)
    (hok : cursorOk ht.Habits.length ht.Days.length r c) :
    ∃ r2 c2, moveCursor key.rune (cursorAt ht r c) = cursorAt ht r2 c2 ∧
      cursorOk ht.Habits.length ht.Days.length r2 c2 := by
  obtain ⟨h1, h2, h3, h4, h5⟩ := hok
  have hrc : ((cursorAt ht r c).Table.rowCount : Int)
      = if ht.Habits.length = 0 then 1 else 2 * (ht.Habits.length : Int) := by
    show (((buildTable ht.Habits ht.Days).rowCount : Nat) : Int) = _
    rw [buildTable_rowCount]
    split <;> simp
  have hsr : (cursorAt ht r c).Table.selRow = r := rfl
  have hsc : (cursorAt ht r c).Table.selCol = c := rfl
  have hdl : (cursorAt ht r c).Days.length = ht.Days.length := rfl
  have hm0 : ¬ r.tmod 2 = 0 := by
    rw [Int.tmod_eq_emod (by omega) (by omega)]; omega
  cases key with
  | h =>
    simp only [NavKey.rune, moveCursor_h, hsr, hsc]
    by_cases hc : c > 0
    · exact ⟨r, c - 1, by rw [if_pos hc]; rfl, h1, h2, h3, by omega, by omega⟩
    · exact ⟨r, c, by rw [if_neg hc], h1, h2, h3, h4, h5⟩
  | l =>
    simp only [NavKey.rune, moveCursor_l, hsr, hsc, hdl]
    by_cases hc : c < (ht.Days.length : Int)
    · exact ⟨r, c + 1, by rw [if_pos hc]; rfl, h1, h2, h3, by omega, by omega⟩
    · exact ⟨r, c, by rw [if_neg hc], h1, h2, h3, h4, h5⟩
  | j =>
    simp only [NavKey.rune, moveCursor_j, hsr, hsc, hrc, if_neg hm0]
    by_cases hlt : r < (if ht.Habits.length = 0 then 1 else 2 * (ht.Habits.length : Int)) - 1
    · refine ⟨r + 2, c, by rw [if_pos hlt]; rfl, by omega, by omega, ?_, h4, h5⟩
      split at hlt <;> omega
    · exact ⟨r, c, by rw [if_neg hlt], h1, h2, h3, h4, h5⟩
  | k =>
    simp only [NavKey.rune, moveCursor_k, hsr, hsc, if_neg hm0]
    by_cases hgt : r > 1
    · exact ⟨r - 2, c, by rw [if_pos hgt]; rfl, by omega, by omega, by omega, h4, h5⟩
    · exact ⟨r, c, by rw [if_neg hgt], h1, h2, h3, h4, h5⟩

theorem pressKey_cursorAt (key : NavKey) (ht : HabitTracker) (r c : Int)
    (hok : cursorOk ht.Habits.length ht.Days.length r c) :
    ∃ r2 c2, pressKey key (cursorAt ht r c) = some (cursorAt ht r2 c2) ∧
      cursorOk ht.Habits.length ht.Days.length r2 c2 := by
  obtain ⟨r2, c2, hmove, hok2⟩ := moveCursor_cursorAt key ht r c hok
  refine ⟨r2, c2, ?_, hok2⟩
  unfold pressKey
  rw [hmove]
  show (((buildTable ht.Habits ht.Days).Select r2 c2).Draw).map _ = _
  rw [cursor_Draw ht.Habits ht.Days r2 c2 hok2]
  rfl

theorem pressKeys_cursorAt (ht : HabitTracker) :
    ∀ (keys : List NavKey) (r c : Int), cursorOk ht.Habits.length ht.Days.length r c →
      ∃ r2 c2, pressKeys keys (cursorAt ht r c) = some (cursorAt ht r2 c2) ∧
        cursorOk ht.Habits.length ht.Days.length r2 c2 := by
  intro keys
  induction keys with
  | nil => intro r c hok; exact ⟨r, c, rfl, hok⟩
  | cons key rest ih =>
    intro r c hok
    obtain ⟨r1, c1, hstep, hok1⟩ := pressKey_cursorAt key ht r c hok
    obtain ⟨r2, c2, hrest, hok2⟩ := ih r1 c1 hok1
    refine ⟨r2, c2, ?_, hok2⟩
    show (match pressKey key (cursorAt ht r c) with
      | none => none
      | some next => pressKeys rest next) = _
    rw [hstep]
    exact hrest

set_option maxRecDepth 100000 in
/-- C10 (as stated, refuted): with no habit the first draw of the built table
leaves the cursor at (1,0), not at (0,0); one press of l reaches (1,1), where
the toggle guard holds, habitIndex is 0 and the out-of-range test of
ToggleHabit (0 >= len(Habits) = 0) is true. -/
theorem C10_no_habit_out_of_range :
    (firstDraw emptyTracker).map (fun s => (s.Table.selRow, s.Table.selCol)) = some (1, 0) ∧
    ((firstDraw emptyTracker).bind (pressKeys [NavKey.l])).map
      (fun s => (s.Table.selRow, s.Table.selCol,
        decide (toggleGuard s.Table.selRow s.Table.selCol),
        (s.Table.selRow - 1).tdiv 2,
        decide ((s.Table.selRow - 1).tdiv 2 < 0 ∨
          (s.Table.selRow - 1).tdiv 2 ≥ (s.Habits.length : Int))))
      = some (1, 1, true, 0, true) := by
  decide

/-- C10 (amended): for every tracker with seven days the first draw of the
table built by BuildUI leaves the cursor at (1,0), whatever the habit count
n, and every sequence of the keys h, j, k, l, each followed by a draw, ends
in a position where, if the toggle guard holds (row > 0, col > 0, row odd),
then 0 <= col-1 < 7, so the index Days[col-1] yields a day, with which the
toggle key calls ToggleHabit at habitIndex = (row-1)/2; when n >= 1,
0 <= habitIndex < n and the out-of-range test of ToggleHabit is false; when
n = 0 that call returns with the tracker as it was. -/
theorem C10_toggle_target_in_range (ht : HabitTracker) (keys : List NavKey)
    (hd : ht.Days.length = 7) :
    (firstDraw ht).map (fun s => (s.Table.selRow, s.Table.selCol)) = some (1, 0) ∧
    ∃ s, (firstDraw ht).bind (pressKeys keys) = some s ∧ s.Habits = ht.Habits ∧
      (toggleGuard s.Table.selRow s.Table.selCol →
        0 ≤ s.Table.selCol - 1 ∧ s.Table.selCol - 1 < 7 ∧
        (∃ day, s.Days.get? (s.Table.selCol - 1).toNat = some day ∧
          ∀ now, toggleKey now s
            = (ToggleHabit now s ((s.Table.selRow - 1).tdiv 2) day).map UpdateUI) ∧
        (1 ≤ ht.Habits.length →
          0 ≤ (s.Table.selRow - 1).tdiv 2 ∧
          (s.Table.selRow - 1).tdiv 2 < (ht.Habits.length : Int) ∧
          ¬ ((s.Table.selRow - 1).tdiv 2 < 0 ∨
            (s.Table.selRow - 1).tdiv 2 ≥ (s.Habits.length : Int))) ∧
        (ht.Habits.length = 0 →
          ∀ now day, ToggleHabit now s ((s.Table.selRow - 1).tdiv 2) day = some s)) := by
  have hstart : cursorOk ht.Habits.length ht.Days.length 1 0 :=
    ⟨by decide, by omega, by omega, by omega, by omega⟩
  obtain ⟨r, c, hrun, hok⟩ := pressKeys_cursorAt ht keys 1 0 hstart
  refine ⟨by rw [firstDraw_cursorAt]; rfl, cursorAt ht r c, ?_, rfl, ?_⟩
  · rw [firstDraw_cursorAt]
    exact hrun
  · intro hg
    obtain ⟨h1, h2, h3, h4, h5⟩ := hok
    have hsr : (cursorAt ht r c).Table.selRow = r := rfl
    have hsc : (cursorAt ht r c).Table.selCol = c := rfl
    have hH : (cursorAt ht r c).Habits = ht.Habits := rfl
    have hD : (cursorAt ht r c).Days = ht.Days := rfl
    have hkey : ∀ day, (cursorAt ht r c).Days.get? ((cursorAt ht r c).Table.selCol - 1).toNat
          = some day →
        ∀ now, toggleKey now (cursorAt ht r c)
          = (ToggleHabit now (cursorAt ht r c)
              (((cursorAt ht r c).Table.selRow - 1).tdiv 2) day).map UpdateUI := by
      intro day hday now
      unfold toggleKey
      simp only [hg, if_true, hday]
    rw [hsr, hsc] at hg hkey ⊢
    obtain ⟨t1, t2, t3⟩ := hg
    rw [hd] at h5
    have hdiv : (r - 1).tdiv 2 = (r - 1) / 2 := Int.tdiv_eq_ediv (by omega) (by omega)
    have hlen : (c - 1).toNat < ht.Days.length := by omega
    have hday : (cursorAt ht r c).Days.get? (c - 1).toNat
        = some (ht.Days[(c - 1).toNat]) := by
      rw [hD]
      simp [List.getElem?_eq_getElem hlen]
    refine ⟨by omega, by omega, ⟨_, hday, hkey _ hday⟩, ?_, ?_⟩
    · intro hn
      rw [hdiv, hH]
      refine ⟨by omega, by omega, by omega⟩
    · intro hn now day
      unfold ToggleHabit
      have hbad : (r - 1).tdiv 2 < 0 ∨ (r - 1).tdiv 2 ≥ ((cursorAt ht r c).Habits.length : Int) := by
        right
        rw [hdiv, hH, hn]
        simp only [Nat.cast_zero]
        omega
      rw [if_pos hbad]

set_option maxRecDepth 100000 in
theorem C10_toggle_target_in_range_witness :
    defaultTracker.Days.length = 7 ∧
    (firstDraw defaultTracker).map (fun s => (s.Table.selRow, s.Table.selCol)) = some (1, 0) ∧
    ((firstDraw defaultTracker).bind (pressKeys [NavKey.j, NavKey.l, NavKey.l])).map
      (fun s => (s.Table.selRow, s.Table.selCol,
        decide (toggleGuard s.Table.selRow s.Table.selCol),
        (s.Table.selRow - 1).tdiv 2))
      = some (3, 2, true, 1) :=
  ⟨by decide,
    (C10_toggle_target_in_range defaultTracker [NavKey.j, NavKey.l, NavKey.l] (by decide)).1,
    by decide⟩

/-! ## Adding and removing habits -/

/-- C1 (as stated, refuted): after add("x","blue") on an empty list, the call
add("x","red") is not rejected; the list then holds two habits named "x",
blue first, red second, and differs from the list before the call. -/
theorem C1_duplicate_is_appended :
    (AddHabit week10 (AddHabit week10 emptyTracker "x" "blue") "x" "red").Habits
      = [{ Name := "x", Color := "blue", DayResults := makeMap },
         { Name := "x", Color := "red", DayResults := makeMap }] ∧
    (AddHabit week10 (AddHabit week10 emptyTracker "x" "blue") "x" "red").Habits
      ≠ (AddHabit week10 emptyTracker "x" "blue").Habits := by
  decide

/-- C1 (amended): AddHabit has no error result and does not look at the names
present: for every habit list, name and colour the habit list after the call
is the list before it followed by one habit with that name, that colour and
an empty allocated completion map. -/
theorem C1_add_appends (now : WeekKey) (ht : HabitTracker) (name color : String) :
    (AddHabit now ht name color).Habits
      = ht.Habits ++ [{ Name := name, Color := color, DayResults := makeMap }] := rfl

theorem findHabit_none (name : String) :
    ∀ hs : List Habit, (∀ x ∈ hs, x.Name ≠ name) → findHabit name hs = none := by
  intro hs
  induction hs with
  | nil => intro _; rfl
  | cons h rest ih =>
    intro hall
    have h1 : ¬ h.Name = name := hall h (List.mem_cons_self _ _)
    have h2 := ih (fun x hx => hall x (List.mem_cons_of_mem _ hx))
    simp [findHabit, h1, h2]

theorem findHabit_first (name : String) :
    ∀ (hs : List Habit) (i : Nat) (hi : i < hs.length), hs[i].Name = name →
      (∀ (j : Nat) (hj : j < i), (hs[j]).Name ≠ name) → findHabit name hs = some i := by
  intro hs
  induction hs with
  | nil => intro i hi; simp at hi
  | cons h rest ih =>
    intro i hi hname hfirst
    cases i with
    | zero =>
      have h0 : h.Name = name := by simpa using hname
      simp [findHabit, h0]
    | succ k =>
      have h1 : ¬ h.Name = name := by
        have := hfirst 0 (by omega)
        simpa using this
      have hk : k < rest.length := by simpa using hi
      have h2 := ih k hk (by simpa using hname) (by
        intro j hj
        have := hfirst (j + 1) (by omega)
        simpa using this)
      simp [findHabit, h1, h2]

/-- C5: for every habit list and every name that no habit of the list
carries, the habit list after RemoveHabit(name) is the habit list before it. -/
theorem C5_remove_missing (now : WeekKey) (ht : HabitTracker) (name : String)
    (hmiss : ∀ x ∈ ht.Habits, x.Name ≠ name) :
    (RemoveHabit now ht name).Habits = ht.Habits := by
  show (match findHabit name ht.Habits with
    | some i => ht.Habits.take i ++ ht.Habits.drop (i + 1)
    | none => ht.Habits) = ht.Habits
  rw [findHabit_none name ht.Habits hmiss]

theorem C5_remove_missing_witness :
    "ghost" ∉ defaultTracker.Habits.map Habit.Name ∧
    (RemoveHabit week10 defaultTracker "ghost").Habits = defaultTracker.Habits :=
  ⟨by decide, C5_remove_missing week10 defaultTracker "ghost" (by decide)⟩

/-- C6: for every habit list in which index i is the first position carrying
the name, the habit list after RemoveHabit(name) is the list with element i
deleted: one habit fewer, the habits before i at the same index and the
habits after i one index lower, each with its name, colour and completion
map as before. -/
theorem C6_remove_first (now : WeekKey) (ht : HabitTracker) (name : String) (i : Nat)
    (hi : i < ht.Habits.length) (hname : (ht.Habits[i]).Name = name)
    (hfirst : ∀ (j : Nat) (hj : j < i), (ht.Habits[j]).Name ≠ name) :
    (RemoveHabit now ht name).Habits = ht.Habits.eraseIdx i ∧
    (RemoveHabit now ht name).Habits.length + 1 = ht.Habits.length ∧
    (∀ j, j < i → (RemoveHabit now ht name).Habits[j]? = ht.Habits[j]?) ∧
    (∀ j, i ≤ j → (RemoveHabit now ht name).Habits[j]? = ht.Habits[j + 1]?) := by
  have e : (RemoveHabit now ht name).Habits = ht.Habits.eraseIdx i := by
    show (match findHabit name ht.Habits with
      | some i => ht.Habits.take i ++ ht.Habits.drop (i + 1)
      | none => ht.Habits) = _
    rw [findHabit_first name ht.Habits i hi hname hfirst, List.eraseIdx_eq_take_drop_succ]
  rw [e]
  refine ⟨rfl, ?_, ?_, ?_⟩
  · rw [List.length_eraseIdx_of_lt hi]; omega
  · intro j hj; exact List.getElem?_eraseIdx_of_lt _ _ _ hj
  · intro j hj; exact List.getElem?_eraseIdx_of_ge _ _ _ hj

theorem C6_remove_first_witness :
    (1 < defaultTracker.Habits.length ∧
      defaultTracker.Habits.map Habit.Name
        = ["water", "exercise", "certification", "breath", "newsboat", "recap", "personal",
            "read"]) ∧
    (RemoveHabit week10 defaultTracker "exercise").Habits = defaultTracker.Habits.eraseIdx 1 ∧
    (RemoveHabit week10 defaultTracker "exercise").Habits.length + 1
      = defaultTracker.Habits.length :=
  ⟨⟨by decide, by decide⟩,
    (C6_remove_first week10 defaultTracker "exercise" 1 (by decide) (by decide) (by
      intro j hj
      have h0 : j = 0 := by omega
      subst h0
      simp [defaultTracker, NewHabitTracker])).1,
    (C6_remove_first week10 defaultTracker "exercise" 1 (by decide) (by decide) (by
      intro j hj
      have h0 : j = 0 := by omega
      subst h0
      simp [defaultTracker, NewHabitTracker])).2.1⟩

/-! ## Toggling -/

/-- C9 (as stated, refuted): on the eight default habits ToggleHabit with
index 8 and with index -1 returns normally, the tracker as it was, instead of
failing. -/
theorem C9_invalid_index_returns_normally :
    (ToggleHabit week10 defaultTracker 8 "Monday").isSome = true ∧
    (ToggleHabit week10 defaultTracker (-1) "Monday").isSome = true ∧
    (ToggleHabit week10 defaultTracker 8 "Monday").map HabitTracker.Habits
      = some defaultTracker.Habits ∧
    (ToggleHabit week10 defaultTracker (-1) "Monday").map HabitTracker.Habits
      = some defaultTracker.Habits := by
  decide

/-- C9 (amended): for every tracker, day and habitIndex with habitIndex < 0 or
habitIndex >= len(Habits), ToggleHabit returns normally and leaves the whole
tracker, habit list and week files included, as it was. -/
theorem C9_invalid_index_noop (now : WeekKey) (ht : HabitTracker) (habitIndex : Int)
    (day : String) (hbad : habitIndex < 0 ∨ habitIndex ≥ (ht.Habits.length : Int)) :
    ToggleHabit now ht habitIndex day = some ht := by
  unfold ToggleHabit
  rw [if_pos hbad]

theorem C9_invalid_index_noop_witness :
    ((8 : Int) < 0 ∨ (8 : Int) ≥ (defaultTracker.Habits.length : Int)) ∧
    ToggleHabit week10 defaultTracker 8 "Monday" = some defaultTracker :=
  ⟨by decide, C9_invalid_index_noop week10 defaultTracker 8 "Monday" (by decide)⟩

theorem entriesLookup_set (key : String) (v : Bool) :
    ∀ (es : Entries) (k : String),
      entriesLookup (entriesSet es key v) k
        = if k = key then some v else entriesLookup es k := by
  intro es
  induction es with
  | nil =>
    intro k
    by_cases h : k = key
    · simp [entriesSet, entriesLookup, h]
    · have h2 : ¬ key = k := fun e => h e.symm
      simp [entriesSet, entriesLookup, h, h2]
  | cons e rest ih =>
    intro k
    obtain ⟨a, w⟩ := e
    by_cases h1 : a = key
    · by_cases h2 : k = key
      · simp [entriesSet, entriesLookup, h1, h2]
      · have h3 : ¬ key = k := fun e => h2 e.symm
        simp [entriesSet, entriesLookup, h1, h2, h3]
    · by_cases h2 : k = key
      · have h3 : ¬ a = k := by rw [h2]; exact h1
        simp [entriesSet, entriesLookup, h1, h2, ih]
      · by_cases h4 : a = k
        · subst h4
          simp [entriesSet, entriesLookup, h2]
        · simp [entriesSet, entriesLookup, h1, h2, h4, ih]

theorem mapLookup_set (es : Entries) (key : String) (v : Bool) (k : String) :
    mapLookup (some (entriesSet es key v)) k
      = if k = key then (v, true) else mapLookup (some es) k := by
  simp only [mapLookup, entriesLookup_set]
  by_cases h : k = key
  · simp [h]
  · simp [h]

/-- C3 (failing input): the week file holding one habit object without a
"days" member loads without error into one habit whose completion map is nil,
index 0 is then a valid index, and ToggleHabit(0, "Monday") on the loaded
tracker panics instead of setting the cell. -/
theorem C3_toggle_on_nil_map_panics :
    (Except.toOption (LoadData week10
        { emptyTracker with Files := fun _ => some noDaysFile })).map HabitTracker.Habits
      = some [{ Name := "a", Color := "blue", DayResults := none }] ∧
    ToggleHabit week10
        { emptyTracker with Habits := [{ Name := "a", Color := "blue", DayResults := none }] }
        0 "Monday" = none := by
  refine ⟨by decide, rfl⟩

theorem ToggleHabit_allocated (now : WeekKey) (ht : HabitTracker) (i : Nat) (day : String)
    (h : Habit) (es : Entries) (hget : ht.Habits[i]? = some h) (hes : h.DayResults = some es) :
    ToggleHabit now ht (i : Int) day
      = some (SaveData now
          { ht with
            Habits := ht.Habits.set i
              { h with DayResults := some (entriesSet es day (!mapGet (some es) day)) } }) := by
  have hi : i < ht.Habits.length := by
    by_contra hc
    rw [List.getElem?_eq_none (by omega)] at hget
    exact absurd hget (by simp)
  have hguard : ¬ ((i : Int) < 0 ∨ (i : Int) ≥ (ht.Habits.length : Int)) := by omega
  unfold ToggleHabit
  rw [if_neg hguard]
  simp only [Int.toNat_ofNat, List.get?_eq_getElem?, hget, hes, mapAssign]

theorem toggled_twice_lookup (es : Entries) (day d : String) :
    mapLookup (some (entriesSet (entriesSet es day (!mapGet (some es) day)) day
        (!mapGet (some (entriesSet es day (!mapGet (some es) day))) day))) d
      = if d = day then (mapGet (some es) day, true) else mapLookup (some es) d := by
  rw [mapLookup_set, mapLookup_set]
  by_cases hd : d = day
  · simp [hd, mapGet, mapLookup_set]
  · simp [hd]

/-- Toggling twice on an allocated map: for every tracker, every valid index
whose habit has an allocated completion map, and every day, both calls of
ToggleHabit return, the first negates the value read at the cell, and after
the second every cell of every habit reads as before the first, under the
one-result read and under the test of BuildUI alike; names and colours are
as before. -/
theorem toggle_twice_allocated (now1 now2 : WeekKey) (ht : HabitTracker) (i : Nat)
    (day : String) (h : Habit) (es : Entries)
    (hget : ht.Habits[i]? = some h) (hes : h.DayResults = some es) :
    ∃ ht1 ht2, ToggleHabit now1 ht (i : Int) day = some ht1 ∧
      ToggleHabit now2 ht1 (i : Int) day = some ht2 ∧
      (ht1.Habits[i]?).map (fun x => mapGet x.DayResults day) = some (!mapGet h.DayResults day) ∧
      ht2.Habits.length = ht.Habits.length ∧
      ∀ (j : Nat) (d : String),
        (ht2.Habits[j]?).map (fun x => mapGet x.DayResults d)
          = (ht.Habits[j]?).map (fun x => mapGet x.DayResults d) ∧
        (ht2.Habits[j]?).map (fun x => isComplete x d)
          = (ht.Habits[j]?).map (fun x => isComplete x d) ∧
        (ht2.Habits[j]?).map Habit.Name = (ht.Habits[j]?).map Habit.Name ∧
        (ht2.Habits[j]?).map Habit.Color = (ht.Habits[j]?).map Habit.Color := by
  have hi : i < ht.Habits.length := by
    by_contra hc
    rw [List.getElem?_eq_none (by omega)] at hget
    exact absurd hget (by simp)
  have e1 := ToggleHabit_allocated now1 ht i day h es hget hes
  have e2 := ToggleHabit_allocated now2
    (SaveData now1
      { ht with
        Habits := ht.Habits.set i
          { h with DayResults := some (entriesSet es day (!mapGet (some es) day)) } })
    i day
    { h with DayResults := some (entriesSet es day (!mapGet (some es) day)) }
    (entriesSet es day (!mapGet (some es) day))
    (by simp [SaveData, List.getElem?_set_self hi]) rfl
  refine ⟨_, _, e1, e2, ?_, ?_, ?_⟩
  · simp [SaveData, List.getElem?_set_self hi, hes, mapGet, mapLookup_set]
  · simp [SaveData]
  · intro j d
    by_cases hj : i = j
    · subst hj
      have hv := toggled_twice_lookup es day d
      simp only [SaveData, List.set_set, List.getElem?_set_self hi, hget, Option.map_some',
        hes, Option.some.injEq, and_true]
      refine ⟨?_, ?_⟩
      · simp only [mapGet, hes] at hv ⊢
        rw [hv]
        by_cases hd : d = day
        · simp [hd]
        · simp [hd]
      · simp only [isComplete, mapGet, hes] at hv ⊢
        rw [hv]
        by_cases hd : d = day
        · subst hd
          simp only [if_true, Bool.true_and, mapLookup]
          cases entriesLookup es d <;> simp
        · simp [hd]
    · simp [SaveData, List.getElem?_set_ne hj]

/-! ## Week file names -/

theorem digitChar_value (k : Nat) (hk : k < 10) : (Nat.digitChar k).toNat - 48 = k := by
  interval_cases k <;> rfl

theorem digitChar_plain (k : Nat) (hk : k < 10) :
    Nat.digitChar k ≠ '_' ∧ Nat.digitChar k ≠ '-' := by
  interval_cases k <;> decide

theorem toDigitsCore_value :
    ∀ (fuel n : Nat) (ds : List Char), n < fuel →
      decimalValue 0 (Nat.toDigitsCore 10 fuel n ds) = decimalValue n ds := by
  intro fuel
  induction fuel with
  | zero => intro n ds h; omega
  | succ fuel ih =>
    intro n ds h
    simp only [Nat.toDigitsCore]
    by_cases h0 : n / 10 = 0
    · simp only [h0, if_true, decimalValue, List.foldl_cons]
      rw [digitChar_value _ (Nat.mod_lt _ (by decide))]
      congr 1
      omega
    · simp only [h0, if_false]
      rw [ih (n / 10) _ (by omega)]
      simp only [decimalValue, List.foldl_cons]
      rw [digitChar_value _ (Nat.mod_lt _ (by decide))]
      congr 1
      omega

theorem toDigitsCore_plain :
    ∀ (fuel n : Nat) (ds : List Char), (∀ c ∈ ds, c ≠ '_' ∧ c ≠ '-') →
      ∀ c ∈ Nat.toDigitsCore 10 fuel n ds, c ≠ '_' ∧ c ≠ '-' := by
  intro fuel
  induction fuel with
  | zero => intro n ds h c hc; exact h c hc
  | succ fuel ih =>
    intro n ds h c hc
    simp only [Nat.toDigitsCore] at hc
    have hds : ∀ x ∈ Nat.digitChar (n % 10) :: ds, x ≠ '_' ∧ x ≠ '-' := by
      intro x hx
      rcases List.mem_cons.mp hx with e | e
      · rw [e]; exact digitChar_plain _ (Nat.mod_lt _ (by decide))
      · exact h x e
    by_cases h0 : n / 10 = 0
    · simp only [h0, if_true] at hc
      exact hds c hc
    · simp only [h0, if_false] at hc
      exact ih (n / 10) _ hds c hc

theorem repr_value (n : Nat) : decimalValue 0 (Nat.repr n).data = n := by
  show decimalValue 0 (Nat.toDigitsCore 10 (n + 1) n []) = n
  rw [toDigitsCore_value (n + 1) n [] (by omega)]
  rfl

theorem repr_plain (n : Nat) : ∀ c ∈ (Nat.repr n).data, c ≠ '_' ∧ c ≠ '-' :=
  toDigitsCore_plain (n + 1) n [] (by simp)

theorem repr_injective (a b : Nat) (h : Nat.repr a = Nat.repr b) : a = b := by
  rw [← repr_value a, ← repr_value b, h]

theorem fmtInt_injective (a b : Int) (h : fmtInt a = fmtInt b) : a = b := by
  cases a with
  | ofNat m =>
    cases b with
    | ofNat k =>
      simp only [fmtInt] at h
      rw [repr_injective m k h]
    | negSucc k =>
      exfalso
      simp only [fmtInt] at h
      have hm : '-' ∈ (Nat.repr m).data := by
        rw [h]; simp
      exact (repr_plain m _ hm).2 rfl
  | negSucc m =>
    cases b with
    | ofNat k =>
      exfalso
      simp only [fmtInt] at h
      have hm : '-' ∈ (Nat.repr k).data := by
        rw [← h]; simp
      exact (repr_plain k _ hm).2 rfl
    | negSucc k =>
      simp only [fmtInt] at h
      have h2 : (Nat.repr (m + 1)).data = (Nat.repr (k + 1)).data := by
        have := congrArg String.data h
        simpa using this
      have h3 := repr_injective _ _ (String.ext h2)
      have : m = k := by omega
      rw [this]

theorem fmtInt_no_underscore (a : Int) : '_' ∉ (fmtInt a).data := by
  intro hmem
  cases a with
  | ofNat m => exact (repr_plain m _ hmem).1 rfl
  | negSucc m =>
    simp only [fmtInt, String.data_append, List.mem_append] at hmem
    rcases hmem with e | e
    · revert e; decide
    · exact (repr_plain _ _ e).1 rfl

theorem split_at_first {α : Type} (x : α) :
    ∀ (a a2 b b2 : List α), x ∉ a → x ∉ a2 → a ++ x :: b = a2 ++ x :: b2 → a = a2 ∧ b = b2 := by
  intro a
  induction a with
  | nil =>
    intro a2 b b2 _ h2 h
    cases a2 with
    | nil => simpa using h
    | cons y rest =>
      exfalso
      simp only [List.nil_append, List.cons_append, List.cons.injEq] at h
      exact h2 (by rw [h.1]; simp)
  | cons y rest ih =>
    intro a2 b b2 h1 h2 h
    cases a2 with
    | nil =>
      exfalso
      simp only [List.nil_append, List.cons_append, List.cons.injEq] at h
      exact h1 (by rw [← h.1]; simp)
    | cons z rest2 =>
      simp only [List.cons_append, List.cons.injEq] at h
      obtain ⟨e1, e2⟩ := ih rest2 b b2 (fun hm => h1 (List.mem_cons_of_mem _ hm))
        (fun hm => h2 (List.mem_cons_of_mem _ hm)) h.2
      exact ⟨by rw [h.1, e1], e2⟩

theorem weekFileName_injective (k1 k2 : WeekKey) (h : weekFileName k1 = weekFileName k2) :
    k1 = k2 := by
  have hd := congrArg String.data h
  simp only [weekFileName, String.data_append, List.append_assoc] at hd
  have hd2 := List.append_cancel_left hd
  have hs := split_at_first '_' _ _ _ _ (fmtInt_no_underscore k1.year)
    (fmtInt_no_underscore k2.year) hd2
  have hy := fmtInt_injective _ _ (String.ext hs.1)
  have hw := fmtInt_injective _ _ (String.ext (List.append_cancel_right hs.2))
  cases k1
  cases k2
  simp only at hy hw
  rw [hy, hw]

theorem weekFilePath_injective (ht : HabitTracker) (k1 k2 : WeekKey)
    (h : weekFilePath ht k1 = weekFilePath ht k2) : k1 = k2 := by
  apply weekFileName_injective
  unfold weekFilePath joinPath at h
  split at h
  · exact h
  · have hd := congrArg String.data h
    simp only [String.data_append, List.append_assoc] at hd
    exact String.ext (List.append_cancel_left (List.append_cancel_left hd))

/-! ## Week isolation -/

theorem ToggleHabit_cases (now : WeekKey) (ht ht1 : HabitTracker) (habitIndex : Int)
    (day : String) (htog : ToggleHabit now ht habitIndex day = some ht1) :
    ht1 = ht ∨ ∃ (i : Nat) (h : Habit) (es : Entries), ht.Habits[i]? = some h ∧
      h.DayResults = some es ∧
      ht1 = SaveData now
        { ht with
          Habits := ht.Habits.set i
            { h with DayResults := some (entriesSet es day (!mapGet (some es) day)) } } := by
  unfold ToggleHabit at htog
  split at htog
  · left
    exact (Option.some.inj htog).symm
  · right
    simp only [List.get?_eq_getElem?] at htog
    cases hget : ht.Habits[habitIndex.toNat]? with
    | none => simp [hget] at htog
    | some h =>
      cases hes : h.DayResults with
      | none => simp [hget, hes, mapAssign] at htog
      | some es =>
        simp only [hget, hes, mapAssign, Option.some.injEq] at htog
        exact ⟨habitIndex.toNat, h, es, hget, hes, htog.symm⟩

theorem map_set_same {α β : Type} (f : α → β) (l : List α) (i : Nat) (a b : α)
    (hget : l[i]? = some a) (hf : f b = f a) : (l.set i b).map f = l.map f := by
  apply List.ext_getElem?
  intro j
  by_cases hj : i = j
  · subst hj
    have hi : i < l.length := by
      by_contra hc
      rw [List.getElem?_eq_none (by omega)] at hget
      exact absurd hget (by simp)
    have hi2 : i < (List.map f l).length := by simpa using hi
    simp [hget, hf, List.getElem?_set_self hi2]
  · simp [List.getElem?_set_ne hj]

theorem LoadData_other_week (ht : HabitTracker) (k1 k2 : WeekKey) (hs : List Habit)
    (hne : k1 ≠ k2)
    (hreset : hs.map (fun h => { h with DayResults := makeMap })
      = ht.Habits.map (fun h => { h with DayResults := makeMap })) :
    Except.map HabitTracker.Habits (LoadData k2 (SaveData k1 { ht with Habits := hs }))
      = Except.map HabitTracker.Habits (LoadData k2 ht) := by
  have hp : ¬ weekFilePath ht k2 = weekFilePath ht k1 :=
    fun e => hne (weekFilePath_injective ht k2 k1 e).symm
  have hfile : (SaveData k1 { ht with Habits := hs }).Files
      (weekFilePath (SaveData k1 { ht with Habits := hs }) k2) = ht.Files (weekFilePath ht k2) := by
    show writeFile ht.Files (weekFilePath ht k1) _ (weekFilePath ht k2) = _
    simp only [writeFile, hp, if_false]
  unfold LoadData
  rw [hfile]
  cases ht.Files (weekFilePath ht k2) with
  | none =>
    show Except.ok _ = Except.ok _
    congr 1
  | some data =>
    cases hu : unmarshalHabits data <;> simp [hu, Except.map]

/-- C8: the record name "habits_<year>_<week>.json" and the path of the week
file are injective in the week key, and for every tracker and any two
distinct week keys k1, k2, a ToggleHabit that returns under k1 (it saves
under k1) leaves the record stored for k2 as it was and leaves the result of a
subsequent LoadData under k2, habit list or error, the same as a LoadData
under k2 without the toggle. -/
theorem C8_week_isolation (ht ht1 : HabitTracker) (k1 k2 : WeekKey) (habitIndex : Int)
    (day : String) (hne : k1 ≠ k2)
    (htog : ToggleHabit k1 ht habitIndex day = some ht1) :
    (∀ a b : WeekKey, weekFileName a = weekFileName b → a = b) ∧
    weekFilePath ht k1 ≠ weekFilePath ht k2 ∧
    ht1.Files (weekFilePath ht1 k2) = ht.Files (weekFilePath ht k2) ∧
    Except.map HabitTracker.Habits (LoadData k2 ht1)
      = Except.map HabitTracker.Habits (LoadData k2 ht) := by
  have hp : ¬ weekFilePath ht k1 = weekFilePath ht k2 :=
    fun e => hne (weekFilePath_injective ht k1 k2 e)
  have hp2 : ¬ weekFilePath ht k2 = weekFilePath ht k1 := fun e => hp e.symm
  refine ⟨weekFileName_injective, hp, ?_, ?_⟩
  · rcases ToggleHabit_cases k1 ht ht1 habitIndex day htog with e | ⟨i, h, es, _, _, e⟩
    · rw [e]
    · rw [e]
      show writeFile ht.Files (weekFilePath ht k1) _ (weekFilePath ht k2) = _
      simp only [writeFile, hp2, if_false]
  · rcases ToggleHabit_cases k1 ht ht1 habitIndex day htog with e | ⟨i, h, es, hget, _, e⟩
    · rw [e]
    · rw [e]
      exact LoadData_other_week ht k1 k2 _ hne (map_set_same _ _ _ _ _ hget rfl)

theorem C8_week_isolation_witness :
    (week10 ≠ week11 ∧
      ToggleHabit week10 defaultTracker 0 "Monday"
        = some (SaveData week10
            { defaultTracker with
              Habits := defaultTracker.Habits.set 0
                { Name := "water", Color := "blue",
                  DayResults := some [("Monday", true)] } })) ∧
    weekFilePath defaultTracker week10 ≠ weekFilePath defaultTracker week11 ∧
    Except.map HabitTracker.Habits
        (LoadData week11 (SaveData week10
          { defaultTracker with
            Habits := defaultTracker.Habits.set 0
              { Name := "water", Color := "blue",
                DayResults := some [("Monday", true)] } }))
      = Except.map HabitTracker.Habits (LoadData week11 defaultTracker) :=
  ⟨⟨by decide, rfl⟩,
    (C8_week_isolation defaultTracker _ week10 week11 0 "Monday" (by decide) rfl).2.1,
    (C8_week_isolation defaultTracker _ week10 week11 0 "Monday" (by decide) rfl).2.2.2⟩

/-! ## Save and load -/

theorem lookup_filter (a : String) :
    ∀ (l : Entries) (k : String),
      entriesLookup (l.filter (fun e => e.1 ≠ a)) k
        = if k = a then none else entriesLookup l k := by
  intro l
  induction l with
  | nil => intro k; simp [entriesLookup]
  | cons e rest ih =>
    intro k
    obtain ⟨b, w⟩ := e
    simp only [ne_eq, decide_not] at ih ⊢
    by_cases hb : b = a
    · subst hb
      by_cases hk : k = b
      · simp [List.filter, ih, hk]
      · have hk2 : ¬ b = k := fun e => hk e.symm
        simp [List.filter, ih, hk, hk2, entriesLookup]
    · by_cases hk : k = a
      · subst hk
        simp [List.filter, hb, entriesLookup, ih]
      · simp [List.filter, hb, entriesLookup, ih, hk]

theorem lookup_mapEntries :
    ∀ (es : Entries) (k : String), entriesLookup (mapEntries es) k = entriesLookup es k := by
  intro es
  induction es with
  | nil => intro k; rfl
  | cons e rest ih =>
    intro k
    obtain ⟨a, v⟩ := e
    simp only [mapEntries, entriesLookup, lookup_filter, ih]
    by_cases h : a = k
    · simp [h]
    · have h2 : ¬ k = a := fun e => h e.symm
      simp [h, h2]

theorem nodup_mapEntries : ∀ es : Entries, ((mapEntries es).map Prod.fst).Nodup := by
  intro es
  induction es with
  | nil => simp [mapEntries]
  | cons e rest ih =>
    obtain ⟨a, v⟩ := e
    simp only [mapEntries, List.map_cons, List.nodup_cons]
    refine ⟨?_, ?_⟩
    · intro hmem
      obtain ⟨x, hx, hxa⟩ := List.mem_map.mp hmem
      have := (List.mem_filter.mp hx).2
      simp at this
      exact this hxa
    · exact ih.sublist (List.Sublist.map _ (List.filter_sublist _))

theorem lookup_some_iff_mem :
    ∀ (l : Entries), (l.map Prod.fst).Nodup →
      ∀ (k : String) (v : Bool), entriesLookup l k = some v ↔ (k, v) ∈ l := by
  intro l
  induction l with
  | nil => intro _ k v; simp [entriesLookup]
  | cons e rest ih =>
    intro hnd k v
    obtain ⟨a, w⟩ := e
    simp only [List.map_cons, List.nodup_cons] at hnd
    obtain ⟨hnot, hrest⟩ := hnd
    simp only [entriesLookup, List.mem_cons, Prod.mk.injEq]
    by_cases h : a = k
    · subst h
      simp only [if_true, Option.some.injEq, true_and]
      constructor
      · intro e; exact Or.inl e.symm
      · rintro (e | e)
        · exact e.symm
        · exact absurd (List.mem_map.mpr ⟨(a, v), e, rfl⟩) hnot
    · have h2 : ¬ k = a := fun e => h e.symm
      simp only [h, if_false, h2, false_and, false_or]
      exact ih hrest k v

theorem lookup_perm (l l2 : Entries) (hp : l.Perm l2) (hnd : (l.map Prod.fst).Nodup)
    (k : String) : entriesLookup l k = entriesLookup l2 k := by
  have hnd2 : (l2.map Prod.fst).Nodup := (hp.map Prod.fst).nodup_iff.mp hnd
  apply Option.ext
  intro v
  simp only [Option.mem_def]
  rw [lookup_some_iff_mem l hnd, lookup_some_iff_mem l2 hnd2]
  exact hp.mem_iff

theorem lookup_foldl_set :
    ∀ (l : Entries), (l.map Prod.fst).Nodup → ∀ (m : Entries) (k : String),
      entriesLookup (l.foldl (fun m e => entriesSet m e.1 e.2) m) k
        = match entriesLookup l k with
          | some v => some v
          | none => entriesLookup m k := by
  intro l
  induction l with
  | nil => intro _ m k; rfl
  | cons e rest ih =>
    intro hnd m k
    obtain ⟨a, w⟩ := e
    simp only [List.map_cons, List.nodup_cons] at hnd
    obtain ⟨hnot, hrest⟩ := hnd
    simp only [List.foldl_cons, ih hrest, entriesLookup, entriesLookup_set]
    by_cases h : a = k
    · subst h
      have hnone : entriesLookup rest a = none := by
        apply Option.eq_none_iff_forall_not_mem.mpr
        intro v hv
        have := (lookup_some_iff_mem rest hrest a v).mp hv
        exact hnot (List.mem_map.mpr ⟨(a, v), this, rfl⟩)
      simp [hnone]
    · have h2 : ¬ k = a := fun e => h e.symm
      simp [h, h2]

theorem mapLookup_reloadDays (m : DayMap) (k : String) :
    mapLookup (reloadDays m) k = mapLookup m k := by
  cases m with
  | none => rfl
  | some es =>
    have hperm := List.perm_insertionSort keyLE (mapEntries es)
    have hnd : (((mapEntries es).insertionSort keyLE).map Prod.fst).Nodup :=
      (hperm.map Prod.fst).nodup_iff.mpr (nodup_mapEntries es)
    have e : entriesLookup
        (((mapEntries es).insertionSort keyLE).foldl (fun m e => entriesSet m e.1 e.2) []) k
          = entriesLookup es k := by
      rw [lookup_foldl_set _ hnd, lookup_perm _ _ hperm hnd, lookup_mapEntries]
      cases entriesLookup es k <;> rfl
    simp only [reloadDays, mapLookup, e]

theorem decodeDayMembers_map :
    ∀ (l m : Entries),
      decodeDayMembers (l.map (fun e => (e.1, Json.bool e.2))) m
        = Except.ok (l.foldl (fun m e => entriesSet m e.1 e.2) m) := by
  intro l
  induction l with
  | nil => intro m; rfl
  | cons e rest ih =>
    intro m
    simp only [List.map_cons, decodeDayMembers, decodeBool, List.foldl_cons, ih]

theorem decodeDays_marshalDays (m : DayMap) :
    decodeDays (marshalDays m) none = Except.ok (reloadDays m) := by
  cases m with
  | none => rfl
  | some es =>
    simp only [marshalDays, decodeDays, decodeDayMembers_map, Option.getD_none, reloadDays]

theorem decodeHabit_marshalHabit (h : Habit) :
    decodeHabit (marshalHabit h) = Except.ok (reloadHabit h) := by
  simp [marshalHabit, decodeHabit, decodeHabitMembers, decodeString, zeroHabit,
    decodeDays_marshalDays, reloadHabit]

theorem decodeHabitList_marshal :
    ∀ hs : List Habit,
      decodeHabitList (hs.map marshalHabit) = Except.ok (hs.map reloadHabit) := by
  intro hs
  induction hs with
  | nil => rfl
  | cons h rest ih =>
    simp only [List.map_cons, decodeHabitList, decodeHabit_marshalHabit, ih]

theorem LoadData_SaveData (now : WeekKey) (ht : HabitTracker) :
    LoadData now (SaveData now ht)
      = Except.ok { SaveData now ht with Habits := updateColors (ht.Habits.map reloadHabit) } := by
  have hfile : (SaveData now ht).Files (weekFilePath (SaveData now ht) now)
      = some (marshalHabits ht.Habits) := by
    show writeFile ht.Files (weekFilePath ht now) _ (weekFilePath ht now) = _
    simp only [writeFile, if_true]
  unfold LoadData
  rw [hfile]
  simp only [marshalHabits, unmarshalHabits, decodeHabitList_marshal]

theorem updateColor_keeps (name : String) :
    ∀ (keys : List String) (h : Habit),
      (updateColor keys name h).Name = h.Name ∧
      (updateColor keys name h).DayResults = h.DayResults := by
  intro keys
  induction keys with
  | nil => intro h; exact ⟨rfl, rfl⟩
  | cons key rest ih =>
    intro h
    simp only [updateColor, List.foldl_cons]
    have step : (if name = key then switchColor key h else h).Name = h.Name ∧
        (if name = key then switchColor key h else h).DayResults = h.DayResults := by
      unfold switchColor
      split_ifs <;> exact ⟨rfl, rfl⟩
    have := ih (if name = key then switchColor key h else h)
    simp only [updateColor] at this
    exact ⟨this.1.trans step.1, this.2.trans step.2⟩

theorem updateColor_nodup (name : String) :
    ∀ (keys : List String) (h : Habit), keys.Nodup →
      updateColor keys name h = if name ∈ keys then switchColor name h else h := by
  intro keys
  induction keys with
  | nil => intro h _; rfl
  | cons key rest ih =>
    intro h hnd
    obtain ⟨hnot, hrest⟩ := List.nodup_cons.mp hnd
    have hstep : updateColor (key :: rest) name h
        = updateColor rest name (if name = key then switchColor key h else h) := rfl
    rw [hstep, ih _ hrest]
    by_cases hk : name = key
    · subst hk
      simp [hnot]
    · simp [hk]

theorem updateColor_order (name : String) (keys : List String) (h : Habit)
    (hp : keys.Perm colorMapKeys) :
    updateColor keys name h = updateColor colorMapKeys name h := by
  have hnd : colorMapKeys.Nodup := by decide
  rw [updateColor_nodup name keys h (hp.nodup_iff.mpr hnd),
    updateColor_nodup name colorMapKeys h hnd]
  simp only [hp.mem_iff]

theorem updateColor_other (name : String) (h : Habit) (hname : name ∉ colorMapKeys) :
    updateColor colorMapKeys name h = h := by
  simp only [colorMapKeys, List.mem_cons, List.mem_singleton, not_or, List.not_mem_nil,
    or_false] at hname
  obtain ⟨h1, h2, h3, h4, h5, h6, h7, h8⟩ := hname
  simp [updateColor, colorMapKeys, h1, h2, h3, h4, h5, h6, h7, h8]

theorem updateColor_builtin (name : String) (h : Habit) (hname : name ∈ colorMapKeys) :
    ∃ d ∈ defaultTracker.Habits, d.Name = name ∧
      (updateColor colorMapKeys name h).Color = d.Color := by
  simp only [colorMapKeys, List.mem_cons, List.mem_singleton, List.not_mem_nil,
    or_false] at hname
  rcases hname with e | e | e | e | e | e | e | e <;> subst e <;>
    simp [updateColor, colorMapKeys, switchColor, defaultTracker, NewHabitTracker]

/-- C2 (as stated, refuted): a habit named "water" saved with the colour "red"
and Monday completed is loaded back, under the same week key, with the colour
"blue"; its name and its Monday value are kept. -/
theorem C2_builtin_color_reset :
    (Except.toOption (LoadData week10 (SaveData week10
        { emptyTracker with
          Habits := [{ Name := "water", Color := "red",
                       DayResults := some [("Monday", true)] }] }))).map
      (fun t => t.Habits.map (fun h => (h.Name, h.Color, mapGet h.DayResults "Monday")))
      = some [("water", "blue", true)] := by
  decide

/-- C2 (amended): for every tracker and week key, LoadData after SaveData under
the same key returns without error a habit list of the same length in which
the habit at each index has the name it had, reads every day as before under
both forms of the map read and under the test of BuildUI, and has the colour
it had when its name is not one of the eight built-in names; a habit with a
built-in name comes back with the colour of the default habit of that name. -/
theorem C2_round_trip (now : WeekKey) (ht : HabitTracker) :
    ∃ ht2, LoadData now (SaveData now ht) = Except.ok ht2 ∧
      ht2.Habits.length = ht.Habits.length ∧
      ∀ (i : Nat) (h : Habit), ht.Habits[i]? = some h →
        ∃ h2, ht2.Habits[i]? = some h2 ∧ h2.Name = h.Name ∧
          (∀ day, mapLookup h2.DayResults day = mapLookup h.DayResults day ∧
            mapGet h2.DayResults day = mapGet h.DayResults day ∧
            isComplete h2 day = isComplete h day) ∧
          (h.Name ∉ colorMapKeys → h2.Color = h.Color) ∧
          (h.Name ∈ colorMapKeys →
            ∃ d ∈ defaultTracker.Habits, d.Name = h.Name ∧ h2.Color = d.Color) := by
  refine ⟨_, LoadData_SaveData now ht, ?_, ?_⟩
  · simp [updateColors]
  · intro i h hget
    refine ⟨updateColor colorMapKeys h.Name (reloadHabit h), ?_, ?_, ?_, ?_, ?_⟩
    · simp [updateColors, hget, reloadHabit]
    · exact (updateColor_keeps h.Name colorMapKeys (reloadHabit h)).1
    · intro day
      have hd : (updateColor colorMapKeys h.Name (reloadHabit h)).DayResults
          = reloadDays h.DayResults :=
        (updateColor_keeps h.Name colorMapKeys (reloadHabit h)).2
      have hl := mapLookup_reloadDays h.DayResults day
      simp only [mapGet, isComplete, hd, hl, and_self]
    · intro hname
      rw [updateColor_other h.Name _ hname]
      rfl
    · intro hname
      exact updateColor_builtin h.Name _ hname

end Tracker
